import Mathlib

/-!
Verification of the receipt statistics aggregation engine
(`src/lib/stats/compute.ts`).

Embedding conventions:
* JS numbers are modelled as exact rationals (`ℚ`) for reward values and as
  `Nat`/`Int` for counts, day numbers and epoch milliseconds.  `parseInt` on a
  digit run is modelled exactly (the JS float rounding above 2^53 is outside
  the modelled range of day numbers).
* ISO-8601 timestamp strings (`ts` fields) are represented by their epoch
  millisecond value: `new Date(ts).getTime()` is injective on valid ISO
  strings, and the lexicographic order on the fixed-width strings coincides
  with the numeric order, which is what the code relies on.
* JS `Map` / `Set` (insertion-ordered) are modelled by association lists that
  preserve key insertion order; `Array.prototype.sort` (stable since ES2019)
  is modelled by a stable insertion sort driven by the same comparator.
* Functions that can throw are modelled in `Option`: `none` is an exception
  escaping the call.
* `Date.prototype.setHours` truncation is modelled with UTC hour boundaries
  (a whole-hour server timezone); `toISOString` date parts are produced by a
  verified Gregorian civil-from-days algorithm below.
-/

set_option maxRecDepth 4000

/-! ## Gregorian calendar: days since 1970-01-01 to a civil date and back -/

/-- Day-of-era at which the era-relative year `k` starts (years counted from a
year divisible by 400, March-based as in Hinnant's algorithm). -/
def dysStart (k : Nat) : Nat := 365 * k + k / 4 - k / 100

/-- Era-relative year from a day-of-era (Hinnant's closed form). -/
def yoeOf (doe : Nat) : Nat := (doe - doe / 1460 + doe / 36524 - doe / 146096) / 365

/-- Numerator of `yoeOf`, used for monotonicity. -/
def gFun (d : Nat) : Nat := d - d / 1460 + d / 36524 - d / 146096

theorem gFun_mono : ∀ d : Nat, gFun d ≤ gFun (d + 1) := by
  intro d
  unfold gFun
  omega

theorem yoeOf_mono {a b : Nat} (h : a ≤ b) : yoeOf a ≤ yoeOf b := by
  unfold yoeOf
  have hg : gFun a ≤ gFun b := by
    induction b with
    | zero => simp_all [gFun]
    | succ n ih =>
      rcases Nat.lt_or_ge a (n + 1) with h1 | h1
      · exact le_trans (ih (by omega)) (gFun_mono n)
      · have : a = n + 1 := by omega
        simp [this]
  unfold gFun at hg
  exact Nat.div_le_div_right hg

/-- Day-of-era at which the year after `k` starts (the era has 146097 days;
its last, 400th year is a leap year). -/
def nextStart (k : Nat) : Nat := if k = 399 then 146097 else dysStart (k + 1)

theorem yearEndpointLow : ∀ k < 400, yoeOf (dysStart k) = k := by decide
theorem yearEndpointHigh : ∀ k < 400, yoeOf (nextStart k - 1) = k := by decide

/-- `yoeOf` picks the year whose day range contains the given day-of-era. -/
theorem yoeOf_interval (doe : Nat) (h : doe < 146097) :
    yoeOf doe ≤ 399 ∧ dysStart (yoeOf doe) ≤ doe ∧ doe < nextStart (yoeOf doe) := by
  have h399 : yoeOf doe ≤ 399 := by
    have h1 : yoeOf doe ≤ yoeOf 146096 := yoeOf_mono (by omega)
    have h2 : yoeOf 146096 = 399 := by
      have := yearEndpointHigh 399 (by omega)
      simpa [nextStart] using this
    omega
  refine ⟨h399, ?_, ?_⟩
  · by_contra hlt
    push_neg at hlt
    have hY1 : 1 ≤ yoeOf doe := by
      by_contra h0
      have : yoeOf doe = 0 := by omega
      rw [this] at hlt
      simp [dysStart] at hlt
    have hprev : nextStart (yoeOf doe - 1) = dysStart (yoeOf doe) := by
      have : yoeOf doe - 1 ≠ 399 := by omega
      simp only [nextStart, if_neg this]
      congr 1
      omega
    have hle : doe ≤ nextStart (yoeOf doe - 1) - 1 := by omega
    have := yoeOf_mono hle
    rw [yearEndpointHigh (yoeOf doe - 1) (by omega)] at this
    omega
  · by_contra hge
    push_neg at hge
    rcases Nat.lt_or_ge (yoeOf doe) 399 with h399lt | h399ge
    · have hnext : nextStart (yoeOf doe) = dysStart (yoeOf doe + 1) := by
        simp [nextStart]
        omega
      rw [hnext] at hge
      have := yoeOf_mono hge
      rw [yearEndpointLow (yoeOf doe + 1) (by omega)] at this
      omega
    · have : yoeOf doe = 399 := by omega
      rw [this] at hge
      simp [nextStart] at hge
      omega

/-- Month/day extraction from a day-of-year checks out on all 366 values:
ranges of month and day, and invertibility of the month/day encoding. -/
def mdCheck (doy : Nat) : Bool :=
  let mp := (5 * doy + 2) / 153
  let d := doy - (153 * mp + 2) / 5 + 1
  let m := if mp < 10 then mp + 3 else mp - 9
  decide (1 ≤ m) && decide (m ≤ 12) && decide (1 ≤ d) && decide (d ≤ 31) &&
    ((153 * (if 2 < m then m - 3 else m + 9) + 2) / 5 + d - 1 == doy) &&
    decide ((153 * mp + 2) / 5 ≤ doy)

theorem mdCheck_all : ∀ doy < 366, mdCheck doy = true := by decide

/-- Civil date `(year, month, day)` from a count of days since 1970-01-01
(Hinnant's `civil_from_days`, restricted to nonnegative days). -/
def civilFromDays (z : Nat) : Nat × Nat × Nat :=
  let zz := z + 719468
  let era := zz / 146097
  let doe := zz % 146097
  let yoe := yoeOf doe
  let doy := doe - dysStart yoe
  let mp := (5 * doy + 2) / 153
  let d := doy - (153 * mp + 2) / 5 + 1
  let m := if mp < 10 then mp + 3 else mp - 9
  (if m ≤ 2 then yoe + era * 400 + 1 else yoe + era * 400, m, d)

/-- Days since 1970-01-01 from a civil date (Hinnant's `days_from_civil`). -/
def daysFromCivil (y m d : Nat) : Nat :=
  let y1 := if m ≤ 2 then y - 1 else y
  let era := y1 / 400
  let yoe := y1 % 400
  let mp := if 2 < m then m - 3 else m + 9
  let doy := (153 * mp + 2) / 5 + d - 1
  let doe := 365 * yoe + yoe / 4 - yoe / 100 + doy
  era * 146097 + doe - 719468

theorem yearLen_le (k : Nat) (hk : k ≤ 399) : nextStart k - dysStart k ≤ 366 := by
  unfold nextStart dysStart
  split <;> omega

/-- Round trip: converting days to a civil date and back is the identity. -/
theorem daysFromCivil_civilFromDays (z : Nat) :
    daysFromCivil (civilFromDays z).1 (civilFromDays z).2.1 (civilFromDays z).2.2 = z := by
  have hdoe : (z + 719468) % 146097 < 146097 := Nat.mod_lt _ (by omega)
  obtain ⟨hy399, hlo, hhi⟩ := yoeOf_interval ((z + 719468) % 146097) hdoe
  set doe := (z + 719468) % 146097 with hdoedef
  set era := (z + 719468) / 146097 with heradef
  set yoe := yoeOf doe with hyoedef
  set doy := doe - dysStart yoe with hdoydef
  have hdoy366 : doy < 366 := by
    have := yearLen_le yoe hy399
    omega
  have hmd := mdCheck_all doy hdoy366
  simp only [mdCheck, Bool.and_eq_true, decide_eq_true_eq, beq_iff_eq] at hmd
  obtain ⟨⟨⟨⟨⟨hm1, hm12⟩, hd1⟩, hd31⟩, hinv⟩, hmple⟩ := hmd
  have heradoe : era * 146097 + doe = z + 719468 := by
    rw [heradef, hdoedef]
    omega
  simp only [civilFromDays, daysFromCivil]
  rw [← hdoedef, ← heradef, ← hyoedef, ← hdoydef]
  set mp := (5 * doy + 2) / 153 with hmpdef
  set d := doy - (153 * mp + 2) / 5 + 1 with hddef
  set m := if mp < 10 then mp + 3 else mp - 9 with hmdef
  have hy400 : (yoe + era * 400) / 400 = era := by omega
  have hy400m : (yoe + era * 400) % 400 = yoe := by omega
  by_cases hm2 : m ≤ 2
  · simp only [if_pos hm2]
    have hiff : ¬ 2 < m := by omega
    rw [if_neg hiff] at hinv ⊢
    have hyrec : yoe + era * 400 + 1 - 1 = yoe + era * 400 := by omega
    rw [hyrec, hy400, hy400m]
    unfold dysStart at hlo hdoydef
    omega
  · simp only [if_neg hm2]
    have hiff : 2 < m := by omega
    rw [if_pos hiff] at hinv ⊢
    rw [hy400, hy400m]
    unfold dysStart at hlo hdoydef
    omega

/-- `civilFromDays` is injective. -/
theorem civilFromDays_injective {z1 z2 : Nat}
    (h : civilFromDays z1 = civilFromDays z2) : z1 = z2 := by
  have h1 := daysFromCivil_civilFromDays z1
  have h2 := daysFromCivil_civilFromDays z2
  rw [h] at h1
  omega

/-- Month and day components of `civilFromDays` are in calendar range. -/
theorem civilFromDays_md_range (z : Nat) :
    1 ≤ (civilFromDays z).2.1 ∧ (civilFromDays z).2.1 ≤ 12 ∧
    1 ≤ (civilFromDays z).2.2 ∧ (civilFromDays z).2.2 ≤ 31 := by
  have hdoe : (z + 719468) % 146097 < 146097 := Nat.mod_lt _ (by omega)
  obtain ⟨hy399, hlo, hhi⟩ := yoeOf_interval ((z + 719468) % 146097) hdoe
  have hdoy366 : (z + 719468) % 146097 - dysStart (yoeOf ((z + 719468) % 146097)) < 366 := by
    have := yearLen_le (yoeOf ((z + 719468) % 146097)) hy399
    omega
  have hmd := mdCheck_all _ hdoy366
  simp only [mdCheck, Bool.and_eq_true, decide_eq_true_eq, beq_iff_eq] at hmd
  simp only [civilFromDays]
  exact ⟨hmd.1.1.1.1.1, hmd.1.1.1.1.2, hmd.1.1.1.2, hmd.1.1.2⟩

/-- The year component grows at most linearly with the day count. -/
theorem civilFromDays_year_bound (z : Nat) (hz : z ≤ 100000000) :
    (civilFromDays z).1 ≤ 999999 := by
  have hdoe : (z + 719468) % 146097 < 146097 := Nat.mod_lt _ (by omega)
  have hy399 := (yoeOf_interval ((z + 719468) % 146097) hdoe).1
  have hera : (z + 719468) / 146097 ≤ 690 := by omega
  simp only [civilFromDays]
  split <;> split <;> omega


/-! ## ISO date formatting (the date part of `Date.prototype.toISOString`) -/

/-- Decimal digit character. -/
def digitChar (n : Nat) : Char := Char.ofNat (48 + n)

theorem digitChar_inj : ∀ a < 10, ∀ b < 10, digitChar a = digitChar b → a = b := by decide

theorem digitChar_ne_plus : ∀ a < 10, digitChar a ≠ '+' := by decide

/-- Two-digit zero-padded decimal (for months and days, always < 100). -/
def pad2 (n : Nat) : List Char := [digitChar (n / 10 % 10), digitChar (n % 10)]

/-- Four-digit zero-padded decimal (`toISOString` year for years ≤ 9999). -/
def pad4 (n : Nat) : List Char :=
  [digitChar (n / 1000 % 10), digitChar (n / 100 % 10), digitChar (n / 10 % 10), digitChar (n % 10)]

/-- Six-digit zero-padded decimal (`toISOString` expanded-year format). -/
def pad6 (n : Nat) : List Char :=
  [digitChar (n / 100000 % 10), digitChar (n / 10000 % 10), digitChar (n / 1000 % 10),
   digitChar (n / 100 % 10), digitChar (n / 10 % 10), digitChar (n % 10)]

/-- Date part of `toISOString` for the date `z` days after 1970-01-01:
`YYYY-MM-DD` for four-digit years, `+YYYYYY-MM-DD` beyond (as in JS). -/
def isoDateOfDays (z : Nat) : String :=
  let c := civilFromDays z
  if c.1 ≤ 9999 then
    String.mk (pad4 c.1 ++ '-' :: (pad2 c.2.1 ++ '-' :: pad2 c.2.2))
  else
    String.mk ('+' :: (pad6 c.1 ++ '-' :: (pad2 c.2.1 ++ '-' :: pad2 c.2.2)))

theorem isoDateOfDays_inj {z1 z2 : Nat} (h1 : z1 ≤ 100000000) (h2 : z2 ≤ 100000000)
    (h : isoDateOfDays z1 = isoDateOfDays z2) : z1 = z2 := by
  have hc1 := civilFromDays_md_range z1
  have hc2 := civilFromDays_md_range z2
  have hy1 := civilFromDays_year_bound z1 h1
  have hy2 := civilFromDays_year_bound z2 h2
  apply @civilFromDays_injective z1 z2
  rcases e1 : civilFromDays z1 with ⟨ya, ma, da⟩
  rcases e2 : civilFromDays z2 with ⟨yb, mb, db⟩
  rw [e1] at hc1 hy1
  rw [e2] at hc2 hy2
  simp only at hc1 hc2 hy1 hy2
  unfold isoDateOfDays at h
  rw [e1, e2] at h
  simp only at h
  obtain ⟨hma1, hma2, hda1, hda2⟩ := hc1
  obtain ⟨hmb1, hmb2, hdb1, hdb2⟩ := hc2
  by_cases ba : ya ≤ 9999 <;> by_cases bb : yb ≤ 9999 <;>
      simp only [if_pos, if_neg, ba, bb, if_true, if_false, ite_true, ite_false] at h <;>
      have hdata := congrArg String.data h <;>
      simp only [String.data] at hdata <;>
      simp only [pad4, pad2, pad6, List.cons_append, List.nil_append,
        List.cons.injEq, List.nil_eq] at hdata
  · obtain ⟨q1, q2, q3, q4, _, q5, q6, _, q7, q8, _⟩ := hdata
    have r1 := digitChar_inj _ (by omega) _ (by omega) q1
    have r2 := digitChar_inj _ (by omega) _ (by omega) q2
    have r3 := digitChar_inj _ (by omega) _ (by omega) q3
    have r4 := digitChar_inj _ (by omega) _ (by omega) q4
    have r5 := digitChar_inj _ (by omega) _ (by omega) q5
    have r6 := digitChar_inj _ (by omega) _ (by omega) q6
    have r7 := digitChar_inj _ (by omega) _ (by omega) q7
    have r8 := digitChar_inj _ (by omega) _ (by omega) q8
    have : ya = yb ∧ ma = mb ∧ da = db := by omega
    simp [this.1, this.2.1, this.2.2]
  · exact absurd hdata.1 (digitChar_ne_plus _ (by omega))
  · exact absurd hdata.1.symm (digitChar_ne_plus _ (by omega))
  · obtain ⟨_, q1, q2, q3, q4, q5, q6, _, q7, q8, _, q9, q10, _⟩ := hdata
    have r1 := digitChar_inj _ (by omega) _ (by omega) q1
    have r2 := digitChar_inj _ (by omega) _ (by omega) q2
    have r3 := digitChar_inj _ (by omega) _ (by omega) q3
    have r4 := digitChar_inj _ (by omega) _ (by omega) q4
    have r5 := digitChar_inj _ (by omega) _ (by omega) q5
    have r6 := digitChar_inj _ (by omega) _ (by omega) q6
    have r7 := digitChar_inj _ (by omega) _ (by omega) q7
    have r8 := digitChar_inj _ (by omega) _ (by omega) q8
    have r9 := digitChar_inj _ (by omega) _ (by omega) q9
    have r10 := digitChar_inj _ (by omega) _ (by omega) q10
    have : ya = yb ∧ ma = mb ∧ da = db := by omega
    simp [this.1, this.2.1, this.2.2]

/-! ## Challenge identifiers: the regex and the date pipeline -/

/-- Value of a decimal digit character. -/
def digitVal (c : Char) : Nat := c.toNat - 48

/-- `parseInt(s, 10)` on a run of decimal digits (exact; JS float rounding
above 2^53 is outside the modelled range). -/
def digitsToNat (ds : List Char) : Nat := ds.foldl (fun acc c => 10 * acc + digitVal c) 0

/-- The regex `/\*\*D(\d+)C/` applied at one start position: literal `**D`,
then a maximal nonempty digit run, then `C`. -/
def matchHead : List Char → Option Nat
  | c1 :: c2 :: c3 :: rest =>
    if c1 = '*' ∧ c2 = '*' ∧ c3 = 'D' then
      let ds := rest.takeWhile Char.isDigit
      if ds.isEmpty then none
      else
        match rest.dropWhile Char.isDigit with
        | c :: _ => if c = 'C' then some (digitsToNat ds) else none
        | [] => none
    else none
  | _ => none

/-- `String.prototype.match`: try the pattern at each start position, left to
right, returning the first capture. -/
def scanMatch : List Char → Option Nat
  | [] => none
  | c :: cs =>
    match matchHead (c :: cs) with
    | some v => some v
    | none => scanMatch cs

/-- `dayFromChallengeId` from the source: extract the day number embedded in
a challenge identifier, throwing (`none`) if the pattern is absent. -/
def dayFromChallengeId (cid : String) : Option Nat := scanMatch cid.data

/-- Decimal digit list of `n` (`Number.prototype.toString`), fuel-based. -/
def natDecGo : Nat → Nat → List Char → List Char
  | 0, _, acc => acc
  | fuel + 1, n, acc =>
    if n < 10 then digitChar n :: acc else natDecGo fuel (n / 10) (digitChar (n % 10) :: acc)

def natDecimal (n : Nat) : List Char := natDecGo (n + 1) n []

/-- `padStart(2, '0')`. -/
def padTwo (ds : List Char) : List Char :=
  if ds.length < 2 then List.replicate (2 - ds.length) '0' ++ ds else ds

/-- The challenge identifier the source rebuilds for a day:
`**D${day.toString().padStart(2, '0')}C00`. -/
def mkChallengeId (day : Nat) : String :=
  String.mk ('*' :: '*' :: 'D' :: (padTwo (natDecimal day) ++ 'C' :: '0' :: '0' :: []))

/-- Days from 1970-01-01 to the reward epoch anchor 2025-10-30 (UTC). -/
def tgeDays : Nat := daysFromCivil 2025 10 30

/-- Epoch anchor in milliseconds: `new Date('2025-10-30T00:00:00Z').getTime()`. -/
def tgeMs : Int := (tgeDays : Int) * 86400000

/-- Largest time value representable by a JS `Date` (8.64e15 ms). -/
def maxJsMs : Int := 8640000000000000

/-- Date string for a day number: `new Date(tge + (day-1)*86400000)` followed
by `toISOString().split('T')[0]`; `none` models the RangeError thrown by
`toISOString` beyond the representable range. -/
def isoDateOfDayNum (day : Nat) : Option String :=
  let ms : Int := tgeMs + ((day : Int) - 1) * 86400000
  if ms ≤ maxJsMs then some (isoDateOfDays (ms.toNat / 86400000)) else none

/-- `dateFromChallengeId` from the source. -/
def dateFromChallengeId (cid : String) : Option String :=
  (dayFromChallengeId cid).bind isoDateOfDayNum

theorem digitVal_digitChar : ∀ n < 10, digitVal (digitChar n) = n := by decide

theorem isDigit_digitChar : ∀ n < 10, (digitChar n).isDigit = true := by decide

theorem takeWhile_digits (ds rest : List Char) (hds : ∀ c ∈ ds, c.isDigit)
    (hr : ∀ h t, rest = h :: t → h.isDigit = false) :
    (ds ++ rest).takeWhile Char.isDigit = ds ∧
      (ds ++ rest).dropWhile Char.isDigit = rest := by
  induction ds with
  | nil =>
    simp only [List.nil_append]
    cases rest with
    | nil => simp
    | cons h t =>
      have := hr h t rfl
      simp [List.takeWhile, List.dropWhile, this]
  | cons c cs ih =>
    have hc : c.isDigit = true := hds c (by simp)
    have hcs : ∀ x ∈ cs, x.isDigit := fun x hx => hds x (by simp [hx])
    obtain ⟨h1, h2⟩ := ih hcs
    simp [List.takeWhile, List.dropWhile, hc, h1, h2]

theorem matchHead_wellFormed (ds rest : List Char) (hne : ds ≠ [])
    (hds : ∀ c ∈ ds, c.isDigit) :
    matchHead ('*' :: '*' :: 'D' :: (ds ++ 'C' :: rest)) = some (digitsToNat ds) := by
  have hr : ∀ h t, ('C' :: rest : List Char) = h :: t → h.isDigit = false := by
    intro h t he
    cases he
    decide
  obtain ⟨h1, h2⟩ := takeWhile_digits ds ('C' :: rest) hds hr
  simp only [matchHead, h1, h2]
  simp [List.isEmpty_iff, hne]

theorem natDecGo_append : ∀ fuel n acc, natDecGo fuel n acc = natDecGo fuel n [] ++ acc := by
  intro fuel
  induction fuel with
  | zero => intro n acc; simp [natDecGo]
  | succ f ih =>
    intro n acc
    by_cases h : n < 10
    · simp [natDecGo, h]
    · simp only [natDecGo, if_neg h]
      rw [ih (n / 10) (digitChar (n % 10) :: acc), ih (n / 10) [digitChar (n % 10)]]
      simp

theorem natDecGo_val : ∀ fuel n, n < fuel → digitsToNat (natDecGo fuel n []) = n := by
  intro fuel
  induction fuel with
  | zero => omega
  | succ f ih =>
    intro n hn
    by_cases h : n < 10
    · simp only [natDecGo, if_pos h, digitsToNat, List.foldl]
      rw [digitVal_digitChar n h]
      omega
    · simp only [natDecGo, if_neg h]
      rw [natDecGo_append f (n / 10) [digitChar (n % 10)]]
      have hlt : n / 10 < f := by omega
      have := ih (n / 10) hlt
      simp only [digitsToNat, List.foldl_append] at this ⊢
      rw [this]
      simp only [List.foldl]
      rw [digitVal_digitChar (n % 10) (by omega)]
      omega

theorem natDecGo_digits : ∀ fuel n acc, (∀ c ∈ acc, c.isDigit) →
    ∀ c ∈ natDecGo fuel n acc, c.isDigit := by
  intro fuel
  induction fuel with
  | zero => intro n acc hacc; simpa [natDecGo] using hacc
  | succ f ih =>
    intro n acc hacc c hc
    by_cases h : n < 10
    · simp only [natDecGo, if_pos h] at hc
      rcases List.mem_cons.mp hc with h1 | h1
      · rw [h1]; exact isDigit_digitChar n h
      · exact hacc c h1
    · simp only [natDecGo, if_neg h] at hc
      refine ih (n / 10) (digitChar (n % 10) :: acc) ?_ c hc
      intro x hx
      rcases List.mem_cons.mp hx with h1 | h1
      · rw [h1]; exact isDigit_digitChar (n % 10) (by omega)
      · exact hacc x h1

theorem natDecimal_ne_nil (n : Nat) : natDecimal n ≠ [] := by
  show natDecGo (n + 1) n [] ≠ []
  by_cases h : n < 10
  · simp [natDecGo, h]
  · simp only [natDecGo, if_neg h]
    rw [natDecGo_append]
    simp

theorem digitsToNat_zero_cons (ds : List Char) :
    digitsToNat ('0' :: ds) = digitsToNat ds := by
  simp [digitsToNat, List.foldl, digitVal]

/-- Parsing the rebuilt challenge identifier recovers the day number. -/
theorem dayFromChallengeId_mkChallengeId (day : Nat) :
    dayFromChallengeId (mkChallengeId day) = some day := by
  have hdig : ∀ c ∈ natDecimal day, c.isDigit :=
    natDecGo_digits (day + 1) day [] (by simp)
  have hpd : ∀ c ∈ padTwo (natDecimal day), c.isDigit := by
    intro c hc
    unfold padTwo at hc
    split at hc
    · rcases List.mem_append.mp hc with h1 | h1
      · have := List.eq_of_mem_replicate h1
        rw [this]; decide
      · exact hdig c h1
    · exact hdig c hc
  have hne : padTwo (natDecimal day) ≠ [] := by
    unfold padTwo
    split
    · intro hcon
      rcases List.append_eq_nil.mp hcon with ⟨_, h2⟩
      exact natDecimal_ne_nil day h2
    · exact natDecimal_ne_nil day
  have hval : digitsToNat (padTwo (natDecimal day)) = day := by
    have hbase : digitsToNat (natDecimal day) = day := natDecGo_val (day + 1) day (by omega)
    unfold padTwo
    split
    · rename_i hlen
      have hlen1 : natDecimal day ≠ [] := natDecimal_ne_nil day
      have : (natDecimal day).length = 1 := by
        have := List.length_pos.mpr hlen1
        omega
      have hrep : 2 - (natDecimal day).length = 1 := by omega
      rw [hrep]
      simp only [List.replicate_succ, List.replicate_zero, List.nil_append, List.cons_append]
      rw [digitsToNat_zero_cons]
      exact hbase
    · exact hbase
  unfold mkChallengeId dayFromChallengeId
  simp only [String.data]
  have hmh := matchHead_wellFormed (padTwo (natDecimal day)) ('0' :: '0' :: []) hne hpd
  unfold scanMatch
  rw [hmh, hval]

/-- `isoDateOfDayNum` is injective: distinct day numbers give distinct dates. -/
theorem isoDateOfDayNum_inj {d1 d2 : Nat} {s : String}
    (h1 : isoDateOfDayNum d1 = some s) (h2 : isoDateOfDayNum d2 = some s) : d1 = d2 := by
  unfold isoDateOfDayNum at h1 h2
  simp only at h1 h2
  split at h1
  case isFalse => exact absurd h1 (by simp)
  case isTrue hle1 =>
  split at h2
  case isFalse => exact absurd h2 (by simp)
  case isTrue hle2 =>
  have htge : tgeDays = 20391 := by decide
  have key : ∀ d : Nat, tgeMs + ((d : Int) - 1) * 86400000 ≤ maxJsMs →
      (tgeMs + ((d : Int) - 1) * 86400000).toNat / 86400000 = tgeDays + d - 1 ∧
        (tgeMs + ((d : Int) - 1) * 86400000).toNat / 86400000 ≤ 100000000 := by
    intro d hle
    simp only [tgeMs, maxJsMs, htge] at hle ⊢
    omega
  have heq : isoDateOfDays ((tgeMs + ((d1 : Int) - 1) * 86400000).toNat / 86400000) =
      isoDateOfDays ((tgeMs + ((d2 : Int) - 1) * 86400000).toNat / 86400000) := by
    have e1 := Option.some.inj h1
    have e2 := Option.some.inj h2
    rw [e1, e2]
  have := isoDateOfDays_inj (key d1 hle1).2 (key d2 hle2).2 heq
  rw [(key d1 hle1).1, (key d2 hle2).1] at this
  omega

/-! ## Data model of the statistics module -/

/-- One receipt row.  The ISO `ts` string is represented by its epoch
millisecond value (see the header comment). -/
structure ReceiptEntry where
  ts : Nat
  address : String
  challenge_id : String
  deriving DecidableEq

structure DayStats where
  day : Nat
  date : String
  receipts : Nat
  addresses : Option Nat
  star : ℚ
  night : ℚ
  deriving DecidableEq

/-- Hourly rollup; `hour` is the window-start ISO string, represented by its
epoch millisecond value (`toISOString` is injective on valid instants). -/
structure HourStats where
  hour : Int
  receipts : Nat
  addresses : Nat
  star : ℚ
  night : ℚ
  deriving DecidableEq

structure AddressStats where
  address : String
  days : List DayStats
  totalReceipts : Nat
  totalStar : ℚ
  totalNight : ℚ
  firstSolution : Option Nat
  lastSolution : Option Nat
  deriving DecidableEq

structure GrandTotal where
  receipts : Nat
  star : ℚ
  night : ℚ
  deriving DecidableEq

structure GlobalStats where
  totalReceipts : Nat
  totalAddresses : Nat
  days : List DayStats
  byAddress : List AddressStats
  startDate : Option String
  endDate : Option String
  grandTotal : GrandTotal
  deriving DecidableEq

/-! ## List utilities mirroring the JS primitives -/

/-- Sequential effectful map over `Option` (a JS loop that can throw). -/
def mapMo {α β : Type} (f : α → Option β) : List α → Option (List β)
  | [] => some []
  | x :: xs =>
    match f x, mapMo f xs with
    | some y, some ys => some (y :: ys)
    | _, _ => none

/-- Association-list lookup (JS `Map.prototype.get`). -/
def lookupA {κ α : Type} [DecidableEq κ] (k : κ) : List (κ × α) → Option α
  | [] => none
  | (k1, v) :: rest => if k = k1 then some v else lookupA k rest

/-- Stable insertion step: place `x` before the first `y` with `le x y`.
With `le x y` meaning "the comparator allows `x` before `y`", folding this
over a list reproduces the (unique) stable sort of `Array.prototype.sort`. -/
def insBy {α : Type} (le : α → α → Bool) (x : α) : List α → List α
  | [] => [x]
  | y :: ys => if le x y then x :: y :: ys else y :: insBy le x ys

/-- Stable insertion sort (the behaviour of ES2019+ `Array.prototype.sort`). -/
def sortBy {α : Type} (le : α → α → Bool) : List α → List α
  | [] => []
  | x :: xs => insBy le x (sortBy le xs)

/-- `dayMap.set(day, (dayMap.get(day) || 0) + 1)` on an insertion-ordered map. -/
def bumpDay : List (Nat × Nat) → Nat → List (Nat × Nat)
  | [], d => [(d, 1)]
  | (k, v) :: rest, d => if k = d then (k, v + 1) :: rest else (k, v) :: bumpDay rest d

/-- One step of building `addressDayMap`. -/
def admInsert : List (String × List (Nat × Nat)) → String → Nat → List (String × List (Nat × Nat))
  | [], a, d => [(a, [(d, 1)])]
  | (k, m) :: rest, a, d =>
    if k = a then (k, bumpDay m d) :: rest else (k, m) :: admInsert rest a d

/-- One step of building `addressTimestamps` (push preserves arrival order). -/
def atsInsert : List (String × List Nat) → String → Nat → List (String × List Nat)
  | [], a, t => [(a, [t])]
  | (k, l) :: rest, a, t =>
    if k = a then (k, l ++ [t]) :: rest else (k, l) :: atsInsert rest a t

/-- One step of building the global day map (`Set.prototype.add` on values). -/
def gdmInsert : List (Nat × List String) → Nat → String → List (Nat × List String)
  | [], d, a => [(d, [a])]
  | (k, s) :: rest, d, a =>
    if k = d then (k, if a ∈ s then s else s ++ [a]) :: rest else (k, s) :: gdmInsert rest d a

def buildAdm (l : List (ReceiptEntry × Nat)) : List (String × List (Nat × Nat)) :=
  l.foldl (fun acc rd => admInsert acc rd.1.address rd.2) []

def buildAts (l : List (ReceiptEntry × Nat)) : List (String × List Nat) :=
  l.foldl (fun acc rd => atsInsert acc rd.1.address rd.1.ts) []

def buildGdm (l : List (ReceiptEntry × Nat)) : List (Nat × List String) :=
  l.foldl (fun acc rd => gdmInsert acc rd.2 rd.1.address) []

/-- Distinct elements in first-appearance order (`new Set(array)`). -/
def firstOccs {α : Type} [DecidableEq α] (l : List α) : List α :=
  l.foldl (fun acc x => if x ∈ acc then acc else acc ++ [x]) []

/-! ## The statistics functions -/

/-- `rates[day - 1] || 0`: an out-of-range index yields `undefined` and hence
0, and a present rate of 0 is also mapped to 0 by `||` (the identity on 0). -/
def rateAt (rates : List ℚ) (day : Nat) : ℚ :=
  if day = 0 then 0 else rates.getD (day - 1) 0

/-- Truncation of `now` to its clock-hour start (`setHours(h, 0, 0, 0)` for a
whole-hour timezone). -/
def hourFloorMs (now : Nat) : Nat := now / 3600000 * 3600000

/-- Comparator order for the per-address day lists: `(a, b) => b.day - a.day`. -/
def dayDescLe (a b : DayStats) : Bool := decide (b.day ≤ a.day)

def sortDaysDesc (l : List DayStats) : List DayStats := sortBy dayDescLe l

/-- Comparator order for addresses: `(a, b) => b.totalReceipts - a.totalReceipts`. -/
def addrDescLe (a b : AddressStats) : Bool := decide (b.totalReceipts ≤ a.totalReceipts)

/-- Default `Array.prototype.sort()` on the fixed-width ISO timestamps:
lexicographic equals numeric order. -/
def natAscLe (a b : Nat) : Bool := decide (a ≤ b)

def emptyGlobalStats : GlobalStats where
  totalReceipts := 0
  totalAddresses := 0
  days := []
  byAddress := []
  startDate := none
  endDate := none
  grandTotal := ⟨0, 0, 0⟩

/-- Per-address block of `computeStats` (one `addressDayMap` entry). -/
def addressStatsOf (rates : List ℚ) (ats : List (String × List Nat))
    (e : String × List (Nat × Nat)) : Option AddressStats :=
  match mapMo (fun dc => (dateFromChallengeId (mkChallengeId dc.1)).map (fun date =>
      let star : ℚ := (dc.2 : ℚ) * rateAt rates dc.1
      ({ day := dc.1, date := date, receipts := dc.2, addresses := none,
         star := star, night := star / 1000000 } : DayStats))) e.2 with
  | none => none
  | some dayStats =>
    let tss := sortBy natAscLe ((lookupA e.1 ats).getD [])
    some { address := e.1
           days := sortDaysDesc dayStats
           totalReceipts := (e.2.map (fun dc => dc.2)).sum
           totalStar := (dayStats.map (fun ds => ds.star)).sum
           totalNight := (dayStats.map (fun ds => ds.star)).sum / 1000000
           firstSolution := tss.head?
           lastSolution := tss.getLast? }

/-- Global per-day block of `computeStats` (one `globalDayMap` entry). -/
def globalDayStatsOf (rates : List ℚ) (tagged : List (ReceiptEntry × Nat))
    (e : Nat × List String) : Option DayStats :=
  (dateFromChallengeId (mkChallengeId e.1)).map (fun date =>
    let cnt := tagged.countP (fun rd => rd.2 == e.1)
    let star : ℚ := (cnt : ℚ) * rateAt rates e.1
    { day := e.1, date := date, receipts := cnt, addresses := some e.2.length,
      star := star, night := star / 1000000 })

/-- `computeStats` from the source.  `none` models a thrown exception (a
challenge identifier that does not parse, or a day so large that
`toISOString` throws). -/
def computeStats (receipts : List ReceiptEntry) (rates : List ℚ) : Option GlobalStats :=
  if receipts.isEmpty then some emptyGlobalStats
  else
    match mapMo (fun r => (dayFromChallengeId r.challenge_id).map (fun d => (r, d))) receipts with
    | none => none
    | some tagged =>
      let adm := buildAdm tagged
      let ats := buildAts tagged
      match mapMo (addressStatsOf rates ats) adm with
      | none => none
      | some byAddr =>
        let byAddress := sortBy addrDescLe byAddr
        match mapMo (globalDayStatsOf rates tagged) (buildGdm tagged) with
        | none => none
        | some gdays =>
          let days := sortDaysDesc gdays
          some { totalReceipts := receipts.length
                 totalAddresses := adm.length
                 days := days
                 byAddress := byAddress
                 startDate := (days.getLast?).map (fun d => d.date)
                 endDate := (days.head?).map (fun d => d.date)
                 grandTotal := ⟨receipts.length,
                   (byAddress.map (fun a => a.totalStar)).sum,
                   (byAddress.map (fun a => a.totalNight)).sum⟩ }

/-- `getTodayStats` from the source.  Outer `none` is a thrown exception;
`some none` is the JS `null` return. -/
def getTodayStats (receipts : List ReceiptEntry) (rates : List ℚ) (now : Nat) :
    Option (Option DayStats) :=
  let today := isoDateOfDays (now / 86400000)
  match mapMo (fun r => (dateFromChallengeId r.challenge_id).map (fun dt => (r, dt))) receipts with
  | none => none
  | some dated =>
    match (dated.filter (fun rd => rd.2 == today)).map (fun rd => rd.1) with
    | [] => some none
    | r0 :: rest =>
      match dayFromChallengeId r0.challenge_id with
      | none => none
      | some day =>
        let todayReceipts := r0 :: rest
        let star : ℚ := (todayReceipts.length : ℚ) * rateAt rates day
        some (some { day := day, date := today, receipts := todayReceipts.length,
                     addresses := some (firstOccs (todayReceipts.map (fun r => r.address))).length,
                     star := star, night := star / 1000000 })

/-- `getSolutionsPerHour` from the source. -/
def getSolutionsPerHour (receipts : List ReceiptEntry) (hours : ℚ) (now : Nat) : ℚ :=
  if receipts.isEmpty then 0
  else
    let cutoff : ℚ := (now : ℚ) - hours * 3600000
    ((receipts.filter (fun r => decide (cutoff ≤ (r.ts : ℚ)))).length : ℚ) / hours

/-- Membership of a receipt in a half-open millisecond window. -/
def inWindow (lo hi : Int) (r : ReceiptEntry) : Bool :=
  decide (lo ≤ (r.ts : Int)) && decide ((r.ts : Int) < hi)

/-- STAR total of a bucket: one rate lookup per receipt, by that receipt's
own day (throws on an unparseable identifier). -/
def hourStarSum (rates : List ℚ) (l : List ReceiptEntry) : Option ℚ :=
  match mapMo (fun r => (dayFromChallengeId r.challenge_id).map (fun day => rateAt rates day)) l with
  | none => none
  | some rs => some rs.sum

/-- `computeHourlyStats` from the source (the previous complete clock hour). -/
def computeHourlyStats (receipts : List ReceiptEntry) (rates : List ℚ) (now : Nat) :
    Option (Option HourStats) :=
  if receipts.isEmpty then some none
  else
    let prevStart : Int := (hourFloorMs now : Int) - 3600000
    let prevEnd : Int := (hourFloorMs now : Int)
    let hourReceipts := receipts.filter (inWindow prevStart prevEnd)
    if hourReceipts.isEmpty then
      some (some { hour := prevStart, receipts := 0, addresses := 0, star := 0, night := 0 })
    else
      match hourStarSum rates hourReceipts with
      | none => none
      | some totalStar =>
        some (some { hour := prevStart, receipts := hourReceipts.length,
                     addresses := (firstOccs (hourReceipts.map (fun r => r.address))).length,
                     star := totalStar, night := totalStar / 1000000 })

/-- Result entry `j` of `computeLastNHours` with `h` hours requested
(loop index `i = h - 1 - j`): the window is
`[hourFloor(now) - (h-j)·3600000, hourFloor(now) - (h-j-1)·3600000)`. -/
def hourEntry (receipts : List ReceiptEntry) (rates : List ℚ) (now : Nat) (h j : Nat) :
    Option HourStats :=
  let hs : Int := (hourFloorMs now : Int) - ((h - j : Nat) : Int) * 3600000
  let he : Int := (hourFloorMs now : Int) - ((h - j - 1 : Nat) : Int) * 3600000
  let hourReceipts := receipts.filter (inWindow hs he)
  match hourStarSum rates hourReceipts with
  | none => none
  | some totalStar =>
    some { hour := hs, receipts := hourReceipts.length,
           addresses := (firstOccs (hourReceipts.map (fun r => r.address))).length,
           star := totalStar, night := totalStar / 1000000 }

/-- `computeLastNHours` from the source. -/
def computeLastNHours (receipts : List ReceiptEntry) (rates : List ℚ) (now : Nat)
    (hours : Int) : Option (List HourStats) :=
  if receipts.isEmpty ∨ hours ≤ 0 then some []
  else mapMo (hourEntry receipts rates now hours.toNat) (List.range hours.toNat)


/-! ## Binary64 semantics for the reward arithmetic

The statistics above model every JS number operation in exact rational
arithmetic.  That is faithful wherever the source computes with integers,
zeros, or a single literal assignment (`night := star / 1_000_000` stores the
very quotient it is compared against), but the source accumulates
`grandTotal.star` and `grandTotal.night` by summing IEEE-754 doubles, and a
double sum of quotients need not equal the quotient of the double sum.  The
definitions below replay `computeStats` in binary64 semantics: a double is
represented by its exact rational value, and every arithmetic step is rounded
to the nearest representable double (ties to even), which is exactly what
IEEE-754 prescribes for `+`, `*` and `/`. -/

/-- Fuel-based floor of the base-2 logarithm. -/
def log2f : Nat → Nat → Nat
  | 0, _ => 0
  | fuel + 1, n => if n < 2 then 0 else log2f fuel (n / 2) + 1

def natLog2 (n : Nat) : Nat := log2f n n

/-- Integer powers of two as rationals. -/
def qpow2 (e : Int) : ℚ := if 0 ≤ e then ((2 : ℚ) ^ e.toNat) else 1 / (2 : ℚ) ^ (-e).toNat

/-- The binade of a positive rational: the `e` with `2^e ≤ q < 2^(e+1)`. -/
def expOf (q : ℚ) : Int :=
  let e0 : Int := (natLog2 q.num.natAbs : Int) - (natLog2 q.den : Int)
  if q < qpow2 e0 then e0 - 1 else if q < qpow2 (e0 + 1) then e0 else e0 + 1

/-- Round a rational to the nearest integer, ties to even. -/
def roundNE (x : ℚ) : Int :=
  let fl : Int := x.floor
  let frac := x - (fl : ℚ)
  if frac < 1 / 2 then fl
  else if 1 / 2 < frac then fl + 1
  else if fl % 2 = 0 then fl else fl + 1

def roundDpos (q : ℚ) : ℚ :=
  let e := expOf q
  ((roundNE (q * qpow2 (52 - e)) : ℚ)) * qpow2 (e - 52)

/-- Round a rational to the nearest binary64 value (round-to-nearest-even,
53-bit significand; the normal range, which covers every value arising
here). -/
def roundD (q : ℚ) : ℚ :=
  if q = 0 then 0 else if 0 < q then roundDpos q else -(roundDpos (-q))

/-- IEEE-754 double addition, multiplication and division: the exact result
rounded to the nearest double. -/
def addD (a b : ℚ) : ℚ := roundD (a + b)

def mulD (a b : ℚ) : ℚ := roundD (a * b)

def divD (a b : ℚ) : ℚ := roundD (a / b)

/-- A JS accumulation loop `sum += x` over doubles: a left fold of rounded
additions starting from 0. -/
def sumD (l : List ℚ) : ℚ := l.foldl addD 0

/-- `addressStatsOf` with the reward arithmetic performed in binary64. -/
def addressStatsOfF (rates : List ℚ) (ats : List (String × List Nat))
    (e : String × List (Nat × Nat)) : Option AddressStats :=
  match mapMo (fun dc => (dateFromChallengeId (mkChallengeId dc.1)).map (fun date =>
      let star : ℚ := mulD (dc.2 : ℚ) (rateAt rates dc.1)
      ({ day := dc.1, date := date, receipts := dc.2, addresses := none,
         star := star, night := divD star 1000000 } : DayStats))) e.2 with
  | none => none
  | some dayStats =>
    let tss := sortBy natAscLe ((lookupA e.1 ats).getD [])
    some { address := e.1
           days := sortDaysDesc dayStats
           totalReceipts := (e.2.map (fun dc => dc.2)).sum
           totalStar := sumD (dayStats.map (fun ds => ds.star))
           totalNight := divD (sumD (dayStats.map (fun ds => ds.star))) 1000000
           firstSolution := tss.head?
           lastSolution := tss.getLast? }

/-- `globalDayStatsOf` with the reward arithmetic performed in binary64. -/
def globalDayStatsOfF (rates : List ℚ) (tagged : List (ReceiptEntry × Nat))
    (e : Nat × List String) : Option DayStats :=
  (dateFromChallengeId (mkChallengeId e.1)).map (fun date =>
    let cnt := tagged.countP (fun rd => rd.2 == e.1)
    let star : ℚ := mulD (cnt : ℚ) (rateAt rates e.1)
    { day := e.1, date := date, receipts := cnt, addresses := some e.2.length,
      star := star, night := divD star 1000000 })

/-- `computeStats` with the reward arithmetic performed in binary64; in
particular `grandTotal.star` and `grandTotal.night` are the source's
`reduce((sum, a) => sum + a.totalStar, 0)` and its `totalNight` twin, that
is, left-folded double additions. -/
def computeStatsF (receipts : List ReceiptEntry) (rates : List ℚ) : Option GlobalStats :=
  if receipts.isEmpty then some emptyGlobalStats
  else
    match mapMo (fun r => (dayFromChallengeId r.challenge_id).map (fun d => (r, d))) receipts with
    | none => none
    | some tagged =>
      let adm := buildAdm tagged
      let ats := buildAts tagged
      match mapMo (addressStatsOfF rates ats) adm with
      | none => none
      | some byAddr =>
        let byAddress := sortBy addrDescLe byAddr
        match mapMo (globalDayStatsOfF rates tagged) (buildGdm tagged) with
        | none => none
        | some gdays =>
          let days := sortDaysDesc gdays
          some { totalReceipts := receipts.length
                 totalAddresses := adm.length
                 days := days
                 byAddress := byAddress
                 startDate := (days.getLast?).map (fun d => d.date)
                 endDate := (days.head?).map (fun d => d.date)
                 grandTotal := ⟨receipts.length,
                   sumD (byAddress.map (fun a => a.totalStar)),
                   sumD (byAddress.map (fun a => a.totalNight))⟩ }

/-! ## Toolkit lemmas about the list utilities -/

theorem mapMo_forall₂ {α β : Type} {f : α → Option β} :
    ∀ {l : List α} {out : List β}, mapMo f l = some out →
      List.Forall₂ (fun a b => f a = some b) l out := by
  intro l
  induction l with
  | nil =>
    intro out h
    simp only [mapMo] at h
    cases h
    exact List.Forall₂.nil
  | cons x xs ih =>
    intro out h
    simp only [mapMo] at h
    cases hfx : f x with
    | none => rw [hfx] at h; cases h
    | some y =>
      rw [hfx] at h
      cases hrec : mapMo f xs with
      | none => rw [hrec] at h; cases h
      | some ys =>
        rw [hrec] at h
        cases h
        exact List.Forall₂.cons hfx (ih hrec)


theorem mapMo_isSome_iff {α β : Type} {f : α → Option β} :
    ∀ {l : List α}, (mapMo f l).isSome ↔ ∀ a ∈ l, (f a).isSome := by
  intro l
  induction l with
  | nil => simp [mapMo]
  | cons x xs ih =>
    simp only [mapMo]
    cases hfx : f x with
    | none => simp [hfx]
    | some y =>
      cases hrec : mapMo f xs with
      | none =>
        refine iff_of_false (by simp) ?_
        intro hall
        have h2 := ih.mpr (fun a ha => hall a (by simp [ha]))
        rw [hrec] at h2
        simp at h2
      | some ys =>
        refine iff_of_true (by simp) ?_
        intro a ha
        rcases List.mem_cons.mp ha with h1 | h1
        · rw [h1, hfx]; rfl
        · exact ih.mp (by rw [hrec]; rfl) a h1

theorem mapMo_none_of_mem {α β : Type} {f : α → Option β} {l : List α} {a : α}
    (ha : a ∈ l) (hfa : f a = none) : mapMo f l = none := by
  cases h : mapMo f l with
  | none => rfl
  | some out =>
    have := mapMo_isSome_iff.mp (by rw [h]; rfl) a ha
    rw [hfa] at this
    simp at this

theorem forall₂_mem_right {α β : Type} {R : α → β → Prop} :
    ∀ {l : List α} {out : List β}, List.Forall₂ R l out → ∀ {b}, b ∈ out →
      ∃ a ∈ l, R a b := by
  intro l out h
  induction h with
  | nil => intro b hb; cases hb
  | cons hR hrest ih =>
    intro b hb
    rcases List.mem_cons.mp hb with h1 | h1
    · subst h1
      exact ⟨_, by simp, hR⟩
    · obtain ⟨a, ha, hab⟩ := ih h1
      exact ⟨a, by simp [ha], hab⟩

theorem mem_insBy {α : Type} (le : α → α → Bool) (x a : α) :
    ∀ s : List α, a ∈ insBy le x s ↔ a = x ∨ a ∈ s := by
  intro s
  induction s with
  | nil => simp [insBy]
  | cons y ys ih =>
    simp only [insBy]
    split
    · simp [List.mem_cons]
    · simp only [List.mem_cons, ih]
      tauto

theorem insBy_perm {α : Type} (le : α → α → Bool) (x : α) :
    ∀ s : List α, List.Perm (insBy le x s) (x :: s) := by
  intro s
  induction s with
  | nil => simp [insBy]
  | cons y ys ih =>
    simp only [insBy]
    split
    · exact List.Perm.refl _
    · exact (ih.cons y).trans (List.Perm.swap x y ys)

theorem sortBy_perm {α : Type} (le : α → α → Bool) :
    ∀ l : List α, List.Perm (sortBy le l) l := by
  intro l
  induction l with
  | nil => exact List.Perm.refl _
  | cons x xs ih =>
    exact (insBy_perm le x (sortBy le xs)).trans (ih.cons x)

theorem insBy_pairwise {α : Type} {le : α → α → Bool} {R : α → α → Prop}
    (htot : ∀ a b, le a b = true ∨ le b a = true)
    (htrans : ∀ a b c, le a b = true → le b c = true → le a c = true)
    (x : α) (s : List α)
    (hs : s.Pairwise (fun a b => le a b = true ∧ (le b a = true → R a b)))
    (hx : ∀ y ∈ s, R x y) :
    (insBy le x s).Pairwise (fun a b => le a b = true ∧ (le b a = true → R a b)) := by
  induction s with
  | nil => simp [insBy]
  | cons y ys ih =>
    rcases List.pairwise_cons.mp hs with ⟨hy, hys⟩
    simp only [insBy]
    split
    case isTrue hxy =>
      refine List.pairwise_cons.mpr ⟨?_, hs⟩
      intro z hz
      rcases List.mem_cons.mp hz with h1 | h1
      · subst h1
        exact ⟨hxy, fun _ => hx z (by simp)⟩
      · exact ⟨htrans x y z hxy (hy z h1).1, fun _ => hx z (by simp [h1])⟩
    case isFalse hxy =>
      refine List.pairwise_cons.mpr ⟨?_, ih hys (fun z hz => hx z (by simp [hz]))⟩
      intro z hz
      rcases (mem_insBy le x z ys).mp hz with h1 | h1
      · subst h1
        have hyx : le y z = true := by
          rcases htot z y with h2 | h2
          · exact absurd h2 (by simpa using hxy)
          · exact h2
        exact ⟨hyx, fun hcon => absurd hcon (by simpa using hxy)⟩
      · exact hy z h1

theorem sortBy_pairwise {α : Type} {le : α → α → Bool} {R : α → α → Prop}
    (htot : ∀ a b, le a b = true ∨ le b a = true)
    (htrans : ∀ a b c, le a b = true → le b c = true → le a c = true) :
    ∀ l : List α, l.Pairwise R →
      (sortBy le l).Pairwise (fun a b => le a b = true ∧ (le b a = true → R a b)) := by
  intro l
  induction l with
  | nil => intro _; simp [sortBy]
  | cons x xs ih =>
    intro hl
    rcases List.pairwise_cons.mp hl with ⟨hx, hxs⟩
    exact insBy_pairwise htot htrans x (sortBy le xs) (ih hxs)
      (fun y hy => hx y ((sortBy_perm le xs).mem_iff.mp hy))

theorem filter_insBy_key {α : Type} (key : α → Nat) (v : Nat) (x : α) :
    ∀ s : List α,
      (insBy (fun a b => decide (key b ≤ key a)) x s).filter (fun a => key a == v) =
        if key x == v then x :: s.filter (fun a => key a == v)
        else s.filter (fun a => key a == v) := by
  intro s
  induction s with
  | nil =>
    simp only [insBy]
    by_cases h : key x == v <;> simp [List.filter, h]
  | cons y ys ih =>
    simp only [insBy]
    split
    case isTrue hle =>
      simp [List.filter_cons]
    case isFalse hle =>
      have hlt : key x < key y := by
        simp only [decide_eq_true_eq] at hle
        omega
      by_cases hxv : key x == v
      · have hyv : ¬ (key y == v) := by
          simp only [beq_iff_eq] at hxv ⊢
          omega
        simp [List.filter_cons, ih, hxv, hyv]
      · simp [List.filter_cons, ih, hxv]

/-- Stability of the modelled `Array.prototype.sort`: elements with a given
key value keep their original relative order. -/
theorem sortBy_filter_key {α : Type} (key : α → Nat) (v : Nat) :
    ∀ l : List α,
      (sortBy (fun a b => decide (key b ≤ key a)) l).filter (fun a => key a == v) =
        l.filter (fun a => key a == v) := by
  intro l
  induction l with
  | nil => rfl
  | cons x xs ih =>
    show (insBy _ x (sortBy _ xs)).filter _ = _
    rw [filter_insBy_key key v x (sortBy (fun a b => decide (key b ≤ key a)) xs), ih]
    by_cases hxv : key x == v <;> simp [List.filter_cons, hxv]

/-! ## Counting lemmas -/

theorem sum_map_zero {κ : Type} : ∀ keys : List κ, (keys.map (fun _ => (0 : Nat))).sum = 0 := by
  intro keys
  induction keys with
  | nil => rfl
  | cons x xs ih => simp [ih]

theorem sum_map_add {κ : Type} (f g : κ → Nat) :
    ∀ keys : List κ, (keys.map (fun k => f k + g k)).sum = (keys.map f).sum + (keys.map g).sum := by
  intro keys
  induction keys with
  | nil => rfl
  | cons x xs ih =>
    simp only [List.map_cons, List.sum_cons, ih]
    omega

theorem sum_ite_zero {κ : Type} [DecidableEq κ] (k : κ) :
    ∀ keys : List κ, k ∉ keys → (keys.map (fun x => if k = x then (1 : Nat) else 0)).sum = 0 := by
  intro keys
  induction keys with
  | nil => intro _; rfl
  | cons y ys ih =>
    intro hk
    have h1 : k ≠ y := fun hcon => hk (by simp [hcon])
    have h2 : k ∉ ys := fun hcon => hk (by simp [hcon])
    simp [h1, ih h2]

theorem sum_ite_one {κ : Type} [DecidableEq κ] (k : κ) :
    ∀ keys : List κ, keys.Nodup → k ∈ keys →
      (keys.map (fun x => if k = x then (1 : Nat) else 0)).sum = 1 := by
  intro keys
  induction keys with
  | nil => intro _ h; cases h
  | cons y ys ih =>
    intro hnd hk
    rcases List.nodup_cons.mp hnd with ⟨hy, hys⟩
    by_cases hky : k = y
    · subst hky
      simp [sum_ite_zero k ys hy]
    · rcases List.mem_cons.mp hk with h1 | h1
      · exact absurd h1 hky
      · simp [hky, ih hys h1]

/-- Partition of a count over a complete list of distinct key values. -/
theorem sum_countP_key {κ α : Type} [DecidableEq κ] (key : α → κ) (p : α → Bool) :
    ∀ (l : List α) (keys : List κ), keys.Nodup → (∀ x ∈ l, p x = true → key x ∈ keys) →
      (keys.map (fun k => l.countP (fun x => key x == k && p x))).sum = l.countP p := by
  intro l
  induction l with
  | nil =>
    intro keys _ _
    simp only [List.countP_nil]
    exact sum_map_zero keys
  | cons a l ih =>
    intro keys hnd hcov
    have hcovl : ∀ x ∈ l, p x = true → key x ∈ keys := fun x hx => hcov x (by simp [hx])
    simp only [List.countP_cons]
    have hsplit : (keys.map (fun k => l.countP (fun x => key x == k && p x) +
        if (key a == k && p a) = true then 1 else 0)).sum =
        (keys.map (fun k => l.countP (fun x => key x == k && p x))).sum +
        (keys.map (fun k => if (key a == k && p a) = true then 1 else 0)).sum :=
      sum_map_add _ _ keys
    rw [hsplit, ih keys hnd hcovl]
    by_cases hpa : p a = true
    case neg =>
      have hz : (keys.map (fun k => if (key a == k && p a) = true then 1 else 0)).sum = 0 := by
        have he : (keys.map (fun k => if (key a == k && p a) = true then 1 else 0)) =
            keys.map (fun _ => (0 : Nat)) := by
          apply List.map_congr_left
          intro k _
          simp [hpa]
        rw [he, sum_map_zero]
      rw [hz, if_neg hpa]
    case pos =>
      have hmem : key a ∈ keys := hcov a (by simp) hpa
      have he : (keys.map (fun k => if (key a == k && p a) = true then 1 else 0)) =
          keys.map (fun k => if key a = k then (1 : Nat) else 0) := by
        apply List.map_congr_left
        intro k _
        simp [hpa, beq_iff_eq]
      rw [he, sum_ite_one (key a) keys hnd hmem, if_pos hpa]

/-! ## Invariants of the insertion-ordered maps -/

theorem gdmInsert_keys (d : Nat) (a : String) :
    ∀ acc : List (Nat × List String),
      (gdmInsert acc d a).map Prod.fst =
        if d ∈ acc.map Prod.fst then acc.map Prod.fst else acc.map Prod.fst ++ [d] := by
  intro acc
  induction acc with
  | nil => simp [gdmInsert]
  | cons e rest ih =>
    obtain ⟨k, s⟩ := e
    simp only [gdmInsert]
    by_cases hk : k = d
    · subst hk
      simp
    · have hk2 : d ≠ k := fun hcon => hk hcon.symm
      simp only [if_neg hk, List.map_cons, ih]
      by_cases hmem : d ∈ rest.map Prod.fst <;> simp [hmem, hk2]

theorem admInsert_keys (a : String) (d : Nat) :
    ∀ acc : List (String × List (Nat × Nat)),
      (admInsert acc a d).map Prod.fst =
        if a ∈ acc.map Prod.fst then acc.map Prod.fst else acc.map Prod.fst ++ [a] := by
  intro acc
  induction acc with
  | nil => simp [admInsert]
  | cons e rest ih =>
    obtain ⟨k, m⟩ := e
    simp only [admInsert]
    by_cases hk : k = a
    · subst hk
      simp
    · have hk2 : a ≠ k := fun hcon => hk hcon.symm
      simp only [if_neg hk, List.map_cons, ih]
      by_cases hmem : a ∈ rest.map Prod.fst <;> simp [hmem, hk2]

theorem nodup_snoc {κ : Type} (l : List κ) (x : κ) (hnd : l.Nodup) (hx : x ∉ l) :
    (l ++ [x]).Nodup := by
  induction l with
  | nil => simp
  | cons y ys ih =>
    rcases List.nodup_cons.mp hnd with ⟨hy, hys⟩
    have hxys : x ∉ ys := fun hcon => hx (by simp [hcon])
    refine List.nodup_cons.mpr ⟨?_, ih hys hxys⟩
    intro hcon
    rcases List.mem_append.mp hcon with h1 | h1
    · exact hy h1
    · have : y = x := by simpa using h1
      exact hx (by simp [this])

theorem buildGdm_keys_nodup :
    ∀ (l : List (ReceiptEntry × Nat)) (acc : List (Nat × List String)),
      (acc.map Prod.fst).Nodup →
      ((l.foldl (fun acc rd => gdmInsert acc rd.2 rd.1.address) acc).map Prod.fst).Nodup := by
  intro l
  induction l with
  | nil => intro acc h; simpa using h
  | cons rd rest ih =>
    intro acc hacc
    simp only [List.foldl_cons]
    apply ih
    rw [gdmInsert_keys]
    split
    · exact hacc
    case isFalse hmem => exact nodup_snoc _ _ hacc hmem

theorem buildGdm_keys_mem :
    ∀ (l : List (ReceiptEntry × Nat)) (acc : List (Nat × List String)) (k : Nat),
      (k ∈ (l.foldl (fun acc rd => gdmInsert acc rd.2 rd.1.address) acc).map Prod.fst ↔
        k ∈ acc.map Prod.fst ∨ k ∈ l.map (fun rd => rd.2)) := by
  intro l
  induction l with
  | nil => intro acc k; simp
  | cons rd rest ih =>
    intro acc k
    simp only [List.foldl_cons, ih, List.map_cons, List.mem_cons]
    rw [gdmInsert_keys]
    split
    case isTrue hmem =>
      constructor
      · tauto
      · rintro (h | h | h)
        · tauto
        · subst h; tauto
        · tauto
    case isFalse hmem =>
      simp only [List.mem_append, List.mem_singleton]
      tauto

theorem buildAdm_keys_nodup :
    ∀ (l : List (ReceiptEntry × Nat)) (acc : List (String × List (Nat × Nat))),
      (acc.map Prod.fst).Nodup →
      ((l.foldl (fun acc rd => admInsert acc rd.1.address rd.2) acc).map Prod.fst).Nodup := by
  intro l
  induction l with
  | nil => intro acc h; simpa using h
  | cons rd rest ih =>
    intro acc hacc
    simp only [List.foldl_cons]
    apply ih
    rw [admInsert_keys]
    split
    · exact hacc
    case isFalse hmem => exact nodup_snoc _ _ hacc hmem

theorem buildAdm_keys_mem :
    ∀ (l : List (ReceiptEntry × Nat)) (acc : List (String × List (Nat × Nat))) (k : String),
      (k ∈ (l.foldl (fun acc rd => admInsert acc rd.1.address rd.2) acc).map Prod.fst ↔
        k ∈ acc.map Prod.fst ∨ k ∈ l.map (fun rd => rd.1.address)) := by
  intro l
  induction l with
  | nil => intro acc k; simp
  | cons rd rest ih =>
    intro acc k
    simp only [List.foldl_cons, ih, List.map_cons, List.mem_cons]
    rw [admInsert_keys]
    split
    case isTrue hmem =>
      constructor
      · tauto
      · rintro (h | h | h)
        · tauto
        · subst h; tauto
        · tauto
    case isFalse hmem =>
      simp only [List.mem_append, List.mem_singleton]
      tauto

/-- The address keys come out in first-appearance order. -/
theorem buildAdm_keys_firstOccs :
    ∀ (l : List (ReceiptEntry × Nat)) (acc : List (String × List (Nat × Nat))),
      (l.foldl (fun acc rd => admInsert acc rd.1.address rd.2) acc).map Prod.fst =
        (l.map (fun rd => rd.1.address)).foldl
          (fun ks a => if a ∈ ks then ks else ks ++ [a]) (acc.map Prod.fst) := by
  intro l
  induction l with
  | nil => intro acc; rfl
  | cons rd rest ih =>
    intro acc
    simp only [List.foldl_cons, List.map_cons, ih, admInsert_keys]

/-! ## Per-day count invariants of the address/day grouping -/

/-- Total receipt count recorded under key `day` in one inner day map. -/
def pairFilterSum (dm : List (Nat × Nat)) (day : Nat) : Nat :=
  ((dm.filter (fun x => x.1 == day)).map (fun x => x.2)).sum

/-- Total receipt count recorded under key `day` across all addresses. -/
def admTotalForDay (m : List (String × List (Nat × Nat))) (day : Nat) : Nat :=
  (m.map (fun e => pairFilterSum e.2 day)).sum

theorem bumpDay_filterSum (d day : Nat) :
    ∀ dm : List (Nat × Nat),
      pairFilterSum (bumpDay dm d) day = pairFilterSum dm day + (if day = d then 1 else 0) := by
  intro dm
  induction dm with
  | nil =>
    by_cases h : day = d
    · subst h; simp [bumpDay, pairFilterSum, List.filter]
    · have : ¬ (d == day) = true := by simpa [beq_iff_eq] using fun hcon => h hcon.symm
      simp [bumpDay, pairFilterSum, List.filter, this, h]
  | cons e rest ih =>
    obtain ⟨k, v⟩ := e
    simp only [bumpDay]
    by_cases hk : k = d
    · subst hk
      by_cases hday : day = k
      · subst hday
        simp only [pairFilterSum, List.filter_cons, beq_self_eq_true, if_pos, List.map_cons,
          List.sum_cons]
        omega
      · have : ¬ (k == day) = true := by simpa [beq_iff_eq] using fun hcon => hday hcon.symm
        simp [pairFilterSum, List.filter_cons, this, hday]
    · simp only [if_neg hk]
      by_cases hday : (k == day) = true
      · simp only [pairFilterSum, List.filter_cons, hday, if_pos, List.map_cons, List.sum_cons]
        have := ih
        simp only [pairFilterSum] at this
        rw [this]
        omega
      · simp only [pairFilterSum, List.filter_cons, hday] at ih ⊢
        simpa using ih

theorem admInsert_totalForDay (a : String) (d day : Nat) :
    ∀ m : List (String × List (Nat × Nat)),
      admTotalForDay (admInsert m a d) day =
        admTotalForDay m day + (if day = d then 1 else 0) := by
  intro m
  induction m with
  | nil =>
    simp only [admInsert, admTotalForDay, List.map_cons, List.map_nil, List.sum_cons,
      List.sum_nil, pairFilterSum]
    by_cases h : day = d
    · subst h; simp [List.filter]
    · have h2 : ¬ (d == day) = true := by simpa [beq_iff_eq] using fun hcon => h hcon.symm
      simp [List.filter, h2, h]
  | cons e rest ih =>
    obtain ⟨k, dm⟩ := e
    simp only [admInsert]
    by_cases hk : k = a
    · simp only [if_pos hk, admTotalForDay, List.map_cons, List.sum_cons,
        bumpDay_filterSum d day dm]
      omega
    · simp only [if_neg hk, admTotalForDay, List.map_cons, List.sum_cons] at ih ⊢
      rw [ih]
      omega

theorem buildAdm_totalForDay (day : Nat) :
    ∀ (l : List (ReceiptEntry × Nat)) (acc : List (String × List (Nat × Nat))),
      admTotalForDay (l.foldl (fun acc rd => admInsert acc rd.1.address rd.2) acc) day =
        admTotalForDay acc day + l.countP (fun rd => rd.2 == day) := by
  intro l
  induction l with
  | nil => intro acc; simp
  | cons rd rest ih =>
    intro acc
    simp only [List.foldl_cons, List.countP_cons, ih, admInsert_totalForDay]
    by_cases h : rd.2 = day
    · simp [h, beq_iff_eq]
      omega
    · have h2 : ¬ (rd.2 == day) = true := by simpa [beq_iff_eq] using h
      have h3 : day ≠ rd.2 := fun hcon => h hcon.symm
      simp [h2, h3]

/-! ## Field extraction for the constructed records -/

theorem dayF_spec (rates : List ℚ) (dc : Nat × Nat) (ds : DayStats)
    (h : (dateFromChallengeId (mkChallengeId dc.1)).map (fun date =>
      let star : ℚ := (dc.2 : ℚ) * rateAt rates dc.1
      ({ day := dc.1, date := date, receipts := dc.2, addresses := none,
         star := star, night := star / 1000000 } : DayStats)) = some ds) :
    ds.day = dc.1 ∧ ds.receipts = dc.2 ∧ ds.star = (dc.2 : ℚ) * rateAt rates dc.1 ∧
      ds.night = ds.star / 1000000 ∧ ds.addresses = none ∧
      dateFromChallengeId (mkChallengeId dc.1) = some ds.date := by
  rcases Option.map_eq_some'.mp h with ⟨date, hdate, hds⟩
  subst hds
  exact ⟨rfl, rfl, rfl, rfl, rfl, hdate⟩

theorem globalDayStatsOf_spec (rates : List ℚ) (tagged : List (ReceiptEntry × Nat))
    (e : Nat × List String) (ds : DayStats)
    (h : globalDayStatsOf rates tagged e = some ds) :
    ds.day = e.1 ∧ ds.receipts = tagged.countP (fun rd => rd.2 == e.1) ∧
      ds.star = (tagged.countP (fun rd => rd.2 == e.1) : ℚ) * rateAt rates e.1 ∧
      ds.night = ds.star / 1000000 ∧ ds.addresses = some e.2.length ∧
      dateFromChallengeId (mkChallengeId e.1) = some ds.date := by
  unfold globalDayStatsOf at h
  rcases Option.map_eq_some'.mp h with ⟨date, hdate, hds⟩
  subst hds
  exact ⟨rfl, rfl, rfl, rfl, rfl, hdate⟩

theorem addressStatsOf_spec (rates : List ℚ) (ats : List (String × List Nat))
    (e : String × List (Nat × Nat)) (a : AddressStats)
    (h : addressStatsOf rates ats e = some a) :
    ∃ L : List DayStats,
      List.Forall₂ (fun dc ds => ds.day = dc.1 ∧ ds.receipts = dc.2 ∧
        ds.star = (dc.2 : ℚ) * rateAt rates dc.1 ∧ ds.night = ds.star / 1000000) e.2 L ∧
      a.days = sortDaysDesc L ∧ a.address = e.1 ∧
      a.totalReceipts = (e.2.map (fun dc => dc.2)).sum ∧
      a.totalStar = (L.map (fun ds => ds.star)).sum ∧
      a.totalNight = a.totalStar / 1000000 := by
  unfold addressStatsOf at h
  split at h
  case h_1 => cases h
  case h_2 L hL =>
    refine ⟨L, ?_, ?_⟩
    · have hf := mapMo_forall₂ hL
      refine List.Forall₂.imp ?_ hf
      intro dc ds hds
      obtain ⟨h1, h2, h3, h4, _, _⟩ := dayF_spec rates dc ds hds
      exact ⟨h1, h2, h3, h4⟩
    · cases h
      exact ⟨rfl, rfl, rfl, rfl, rfl⟩

/-- The receipt components of the tagged list are the receipts themselves. -/
theorem tagged_fst {receipts : List ReceiptEntry} {tagged : List (ReceiptEntry × Nat)}
    (h : mapMo (fun r => (dayFromChallengeId r.challenge_id).map (fun d => (r, d))) receipts =
      some tagged) : tagged.map Prod.fst = receipts := by
  have hf := mapMo_forall₂ h
  clear h
  induction hf with
  | nil => rfl
  | cons hR hrest ih =>
    rcases Option.map_eq_some'.mp hR with ⟨d, hd, hpair⟩
    simp only [List.map_cons, ih]
    rw [← hpair]

/-- Each tagged pair carries its receipt's parsed day. -/
theorem tagged_day {receipts : List ReceiptEntry} {tagged : List (ReceiptEntry × Nat)}
    (h : mapMo (fun r => (dayFromChallengeId r.challenge_id).map (fun d => (r, d))) receipts =
      some tagged) :
    ∀ rd ∈ tagged, rd.1 ∈ receipts ∧ dayFromChallengeId rd.1.challenge_id = some rd.2 := by
  intro rd hrd
  obtain ⟨r, hr, hR⟩ := forall₂_mem_right (mapMo_forall₂ h) hrd
  rcases Option.map_eq_some'.mp hR with ⟨d, hd, hpair⟩
  constructor
  · rw [← hpair] at hrd ⊢
    exact hr
  · rw [← hpair]
    exact hd

/-! ## Characterizing the challenge-identifier pattern -/

theorem matchHead_some_decomp {l : List Char} {v : Nat} (h : matchHead l = some v) :
    ∃ ds q : List Char, l = '*' :: '*' :: 'D' :: (ds ++ 'C' :: q) ∧ ds ≠ [] ∧
      (∀ c ∈ ds, c.isDigit) ∧ v = digitsToNat ds := by
  match l with
  | [] => simp [matchHead] at h
  | [c1] => simp [matchHead] at h
  | [c1, c2] => simp [matchHead] at h
  | c1 :: c2 :: c3 :: rest =>
    simp only [matchHead] at h
    split at h
    case isFalse => cases h
    case isTrue hc =>
      obtain ⟨hc1, hc2, hc3⟩ := hc
      subst hc1
      subst hc2
      subst hc3
      split at h
      case isTrue => cases h
      case isFalse hemp =>
        split at h
        case h_2 => cases h
        case h_1 c t hdrop =>
          split at h
          case isFalse => cases h
          case isTrue hC =>
            subst hC
            refine ⟨rest.takeWhile Char.isDigit, t, ?_, ?_, ?_, ?_⟩
            · have := List.takeWhile_append_dropWhile Char.isDigit rest
              rw [hdrop] at this
              exact congrArg (fun x => '*' :: '*' :: 'D' :: x) this.symm
            · simpa [List.isEmpty_iff] using hemp
            · intro c hc
              exact List.mem_takeWhile_imp hc
            · exact (Option.some.inj h).symm

theorem scanMatch_isSome_iff : ∀ l : List Char,
    (scanMatch l).isSome ↔
      ∃ p ds q : List Char, l = p ++ '*' :: '*' :: 'D' :: (ds ++ 'C' :: q) ∧ ds ≠ [] ∧
        ∀ c ∈ ds, c.isDigit := by
  intro l
  induction l with
  | nil =>
    simp only [scanMatch, Option.isSome_none, Bool.false_eq_true, false_iff]
    rintro ⟨p, ds, q, habs, -, -⟩
    cases p <;> simp at habs
  | cons c cs ih =>
    simp only [scanMatch]
    cases hmh : matchHead (c :: cs) with
    | some v =>
      refine iff_of_true rfl ?_
      obtain ⟨ds, q, hdec, hne, hdig, _⟩ := matchHead_some_decomp hmh
      exact ⟨[], ds, q, by simpa using hdec, hne, hdig⟩
    | none =>
      rw [ih]
      constructor
      · rintro ⟨p, ds, q, hdec, hne, hdig⟩
        exact ⟨c :: p, ds, q, by simp [hdec], hne, hdig⟩
      · rintro ⟨p, ds, q, hdec, hne, hdig⟩
        cases p with
        | nil =>
          simp only [List.nil_append] at hdec
          have := matchHead_wellFormed ds q hne hdig
          rw [← hdec] at this
          rw [this] at hmh
          cases hmh
        | cons p0 ps =>
          simp only [List.cons_append, List.cons.injEq] at hdec
          exact ⟨ps, ds, q, hdec.2, hne, hdig⟩

/-- C3: `dayFromChallengeId` succeeds exactly on identifiers containing the
pattern `**D<digits>C`, returns the embedded day number for a well-formed
identifier, and a single unparseable identifier makes the whole
`computeStats` call fail rather than skip the receipt. -/
theorem dayFromChallengeId_spec :
    (∀ cid : String, (dayFromChallengeId cid).isSome ↔
      ∃ p ds q : List Char, cid.data = p ++ '*' :: '*' :: 'D' :: (ds ++ 'C' :: q) ∧ ds ≠ [] ∧
        ∀ c ∈ ds, c.isDigit) ∧
    (∀ ds q : List Char, ds ≠ [] → (∀ c ∈ ds, c.isDigit) →
      dayFromChallengeId (String.mk ('*' :: '*' :: 'D' :: (ds ++ 'C' :: q))) =
        some (digitsToNat ds)) ∧
    (∀ (receipts : List ReceiptEntry) (rates : List ℚ) (r : ReceiptEntry), r ∈ receipts →
      dayFromChallengeId r.challenge_id = none → computeStats receipts rates = none) := by
  refine ⟨?_, ?_, ?_⟩
  · intro cid
    exact scanMatch_isSome_iff cid.data
  · intro ds q hne hdig
    unfold dayFromChallengeId
    simp only [String.data]
    have hmh := matchHead_wellFormed ds q hne hdig
    unfold scanMatch
    rw [hmh]
  · intro receipts rates r hr hnone
    have hne : ¬ receipts.isEmpty = true := by
      cases receipts with
      | nil => cases hr
      | cons x xs => simp
    unfold computeStats
    rw [if_neg hne]
    have hmm : mapMo (fun r => (dayFromChallengeId r.challenge_id).map (fun d => (r, d)))
        receipts = none := by
      apply mapMo_none_of_mem hr
      rw [hnone]
      rfl
    rw [hmm]

/-- Witness for C3 on concrete identifiers. -/
theorem dayFromChallengeId_spec_witness :
    (dayFromChallengeId (String.mk ['*', '*', 'D', '0', '1', 'C', '1', '0']) = some 1) ∧
    computeStats [⟨0, "A", "bad-id"⟩] [] = none := by
  constructor
  · have h := dayFromChallengeId_spec.2.1 ['0', '1'] ['1', '0'] (by simp) (by decide)
    simpa using h
  · exact dayFromChallengeId_spec.2.2 [⟨0, "A", "bad-id"⟩] [] ⟨0, "A", "bad-id"⟩ (by simp)
      (by decide)

/-- C7: the day-to-date mapping adds `(N−1)` whole UTC days to the 2025-10-30
anchor, is injective where defined, and sends day 8 to 2025-11-06. -/
theorem dateFromChallengeId_spec :
    (∀ d1 d2 : Nat, ∀ s : String,
      isoDateOfDayNum d1 = some s → isoDateOfDayNum d2 = some s → d1 = d2) ∧
    isoDateOfDays tgeDays = "2025-10-30" ∧
    dateFromChallengeId (String.mk ['*', '*', 'D', '0', '8', 'C', '0', '0']) =
      some "2025-11-06" := by
  refine ⟨?_, ?_, ?_⟩
  · intro d1 d2 s h1 h2
    exact isoDateOfDayNum_inj h1 h2
  · decide
  · decide

/-- Witness for C7: the injectivity hypothesis discharged at day 8. -/
theorem dateFromChallengeId_spec_witness :
    isoDateOfDayNum 8 = some "2025-11-06" ∧ (8 : Nat) = 8 := by
  have h8 : isoDateOfDayNum 8 = some "2025-11-06" := by decide
  exact ⟨h8, dateFromChallengeId_spec.1 8 8 "2025-11-06" h8 h8⟩

/-- C9: `getSolutionsPerHour` counts the receipts with timestamp at least
`now − hours · 3600000` ms, divides by `hours`, and returns 0 on the empty
receipt list. -/
theorem getSolutionsPerHour_spec (receipts : List ReceiptEntry) (hours : ℚ) (now : Nat) :
    (receipts = [] → getSolutionsPerHour receipts hours now = 0) ∧
    (receipts ≠ [] → getSolutionsPerHour receipts hours now =
      (receipts.countP (fun r => decide ((now : ℚ) - hours * 3600000 ≤ (r.ts : ℚ))) : ℚ) /
        hours) := by
  constructor
  · intro h
    subst h
    rfl
  · intro h
    unfold getSolutionsPerHour
    rw [if_neg (by simpa [List.isEmpty_iff] using h)]
    rw [List.countP_eq_length_filter]

/-- Witness for C9. -/
theorem getSolutionsPerHour_spec_witness :
    getSolutionsPerHour [] 24 1762340000000 = 0 ∧
    getSolutionsPerHour [⟨1762337700000, "A", "**D07C01"⟩] 24 1762340000000 = 1 / 24 := by
  constructor
  · exact (getSolutionsPerHour_spec [] 24 1762340000000).1 rfl
  · rw [(getSolutionsPerHour_spec [⟨1762337700000, "A", "**D07C01"⟩] 24 1762340000000).2
      (by simp)]
    decide!

/-- C4: `computeHourlyStats` returns `null` exactly for the empty receipt
list; a non-empty list with no receipt in the previous-clock-hour half-open
window yields an all-zero HourStats labelled with the previous hour start. -/
theorem computeHourlyStats_spec (receipts : List ReceiptEntry) (rates : List ℚ) (now : Nat) :
    (computeHourlyStats receipts rates now = some none ↔ receipts = []) ∧
    (receipts ≠ [] →
      (∀ r ∈ receipts,
        inWindow ((hourFloorMs now : Int) - 3600000) (hourFloorMs now : Int) r = false) →
      computeHourlyStats receipts rates now =
        some (some { hour := (hourFloorMs now : Int) - 3600000,
                     receipts := 0, addresses := 0, star := 0, night := 0 })) := by
  constructor
  · constructor
    · intro h
      by_contra hne
      unfold computeHourlyStats at h
      rw [if_neg (by simpa [List.isEmpty_iff] using hne)] at h
      dsimp only at h
      split at h
      · simp at h
      · split at h
        · cases h
        · simp at h
    · intro h
      subst h
      rfl
  · intro hne hnowin
    unfold computeHourlyStats
    rw [if_neg (by simpa [List.isEmpty_iff] using hne)]
    have hfil : receipts.filter
        (inWindow ((hourFloorMs now : Int) - 3600000) (hourFloorMs now : Int)) = [] := by
      apply List.filter_eq_nil_iff.mpr
      intro r hr
      simp [hnowin r hr]
    dsimp only
    rw [hfil]
    rfl

/-- Witness for C4: empty list and a list whose sole receipt lies in the
current (incomplete) hour, not the previous one. -/
theorem computeHourlyStats_spec_witness :
    computeHourlyStats [] [] 1762340000000 = some none ∧
    computeHourlyStats [⟨1762337700000, "A", "**D07C01"⟩] [] 1762340000000 =
      some (some { hour := (1762336800000 : Int) - 3600000,
                   receipts := 0, addresses := 0, star := 0, night := 0 }) := by
  constructor
  · exact (computeHourlyStats_spec [] [] 1762340000000).1.mpr rfl
  · have h := (computeHourlyStats_spec [⟨1762337700000, "A", "**D07C01"⟩] [] 1762340000000).2
      (by simp) (by decide)
    have hfl : hourFloorMs 1762340000000 = 1762336800000 := by decide
    rw [h, hfl]
    norm_num

theorem hourEntry_isSome (receipts : List ReceiptEntry) (rates : List ℚ) (now : Nat)
    (h j : Nat) (hparse : ∀ r ∈ receipts, (dayFromChallengeId r.challenge_id).isSome) :
    (hourEntry receipts rates now h j).isSome := by
  unfold hourEntry
  dsimp only
  split
  case h_1 hsum =>
    exfalso
    unfold hourStarSum at hsum
    split at hsum
    case h_1 hmm =>
      have hs : (mapMo (fun r => (dayFromChallengeId r.challenge_id).map
          (fun day => rateAt rates day))
          (List.filter (inWindow ((hourFloorMs now : Int) - ((h - j : Nat) : Int) * 3600000)
            ((hourFloorMs now : Int) - ((h - j - 1 : Nat) : Int) * 3600000))
            receipts)).isSome := by
        apply mapMo_isSome_iff.mpr
        intro r hr
        rw [Option.isSome_map']
        exact hparse r (List.mem_of_mem_filter hr)
      rw [hmm] at hs
      simp at hs
    case h_2 => cases hsum
  case h_2 => rfl

theorem hourEntry_fields (receipts : List ReceiptEntry) (rates : List ℚ) (now : Nat)
    (h j : Nat) (e : HourStats) (he : hourEntry receipts rates now h j = some e) :
    e.hour = (hourFloorMs now : Int) - ((h - j : Nat) : Int) * 3600000 ∧
    (receipts.filter (inWindow ((hourFloorMs now : Int) - ((h - j : Nat) : Int) * 3600000)
        ((hourFloorMs now : Int) - ((h - j - 1 : Nat) : Int) * 3600000)) = [] →
      e.receipts = 0 ∧ e.addresses = 0 ∧ e.star = 0 ∧ e.night = 0) := by
  unfold hourEntry at he
  dsimp only at he
  split at he
  case h_1 => cases he
  case h_2 totalStar hsum =>
    cases he
    refine ⟨rfl, ?_⟩
    intro hfil
    rw [hfil] at hsum
    have h0 : totalStar = 0 := by
      unfold hourStarSum at hsum
      simp only [mapMo] at hsum
      cases hsum
      rfl
    rw [hfil]
    subst h0
    refine ⟨rfl, rfl, rfl, ?_⟩
    show (0 : ℚ) / 1000000 = 0
    norm_num

/-- C5: `computeLastNHours` returns the empty list when `hours ≤ 0` or there
are no receipts, and otherwise (for parseable receipts) exactly `hours`
entries ordered oldest first, entry `i` labelled with the clock-hour window
start `hourFloor(now) − (hours−i)·3600000`, and zero-valued whenever no
receipt falls in its window. -/
theorem computeLastNHours_spec (receipts : List ReceiptEntry) (rates : List ℚ) (now : Nat)
    (hours : Int) :
    (receipts = [] ∨ hours ≤ 0 → computeLastNHours receipts rates now hours = some []) ∧
    (receipts ≠ [] → 0 < hours →
      (∀ r ∈ receipts, (dayFromChallengeId r.challenge_id).isSome) →
      ∃ l, computeLastNHours receipts rates now hours = some l ∧
        (l.length : Int) = hours ∧
        (∀ i (hi : i < l.length),
          (l.get ⟨i, hi⟩).hour =
            (hourFloorMs now : Int) - ((hours.toNat - i : Nat) : Int) * 3600000) ∧
        (∀ i (hi : i < l.length),
          receipts.filter (inWindow
              ((hourFloorMs now : Int) - ((hours.toNat - i : Nat) : Int) * 3600000)
              ((hourFloorMs now : Int) - ((hours.toNat - i - 1 : Nat) : Int) * 3600000)) = [] →
          (l.get ⟨i, hi⟩).receipts = 0 ∧ (l.get ⟨i, hi⟩).addresses = 0 ∧
            (l.get ⟨i, hi⟩).star = 0 ∧ (l.get ⟨i, hi⟩).night = 0)) := by
  constructor
  · intro h
    unfold computeLastNHours
    rw [if_pos]
    rcases h with h | h
    · left; simpa [List.isEmpty_iff] using h
    · right; exact h
  · intro hne hpos hparse
    unfold computeLastNHours
    rw [if_neg (by simp [List.isEmpty_iff, hne]; omega)]
    have hsome : (mapMo (hourEntry receipts rates now hours.toNat)
        (List.range hours.toNat)).isSome := by
      apply mapMo_isSome_iff.mpr
      intro j _
      exact hourEntry_isSome receipts rates now hours.toNat j hparse
    rcases Option.isSome_iff_exists.mp hsome with ⟨l, hl⟩
    refine ⟨l, hl, ?_, ?_, ?_⟩
    · have hlen := List.Forall₂.length_eq (mapMo_forall₂ hl)
      rw [List.length_range] at hlen
      omega
    · intro i hi
      have hf := mapMo_forall₂ hl
      have hrlen : (List.range hours.toNat).length = hours.toNat := List.length_range _
      have hlen := List.Forall₂.length_eq hf
      rw [List.length_range] at hlen
      have hget := (List.forall₂_iff_get.mp hf).2 i (by omega) hi
      have hrange : (List.range hours.toNat).get ⟨i, by omega⟩ = i := by
        simp [List.get_eq_getElem]
      rw [hrange] at hget
      exact (hourEntry_fields receipts rates now hours.toNat i _ hget).1
    · intro i hi hfil
      have hf := mapMo_forall₂ hl
      have hrlen : (List.range hours.toNat).length = hours.toNat := List.length_range _
      have hlen := List.Forall₂.length_eq hf
      rw [List.length_range] at hlen
      have hget := (List.forall₂_iff_get.mp hf).2 i (by omega) hi
      have hrange : (List.range hours.toNat).get ⟨i, by omega⟩ = i := by
        simp [List.get_eq_getElem]
      rw [hrange] at hget
      exact (hourEntry_fields receipts rates now hours.toNat i _ hget).2 hfil

/-- Witness for C5: one receipt, eight hours; the receipt is in the current
(incomplete) hour, so every bucket is empty but all eight are present. -/
theorem computeLastNHours_spec_witness :
    computeLastNHours [] [] 1762340000000 8 = some [] ∧
    (∃ l, computeLastNHours [⟨1762337700000, "A", "**D07C01"⟩] [] 1762340000000 8 = some l ∧
      (l.length : Int) = 8) := by
  constructor
  · exact (computeLastNHours_spec [] [] 1762340000000 8).1 (Or.inl rfl)
  · obtain ⟨l, h1, h2, -, -⟩ :=
      (computeLastNHours_spec [⟨1762337700000, "A", "**D07C01"⟩] [] 1762340000000 8).2
        (by simp) (by omega) (by decide)
    exact ⟨l, h1, h2⟩

/-- Inversion of a successful `computeStats` call on a non-empty input. -/
theorem computeStats_inv {receipts : List ReceiptEntry} {rates : List ℚ} {g : GlobalStats}
    (hne : receipts ≠ []) (hg : computeStats receipts rates = some g) :
    ∃ (tagged : List (ReceiptEntry × Nat)) (byAddr : List AddressStats)
      (gdays : List DayStats),
      mapMo (fun r => (dayFromChallengeId r.challenge_id).map (fun d => (r, d))) receipts =
        some tagged ∧
      mapMo (addressStatsOf rates (buildAts tagged)) (buildAdm tagged) = some byAddr ∧
      mapMo (globalDayStatsOf rates tagged) (buildGdm tagged) = some gdays ∧
      g.days = sortDaysDesc gdays ∧
      g.byAddress = sortBy addrDescLe byAddr ∧
      g.totalReceipts = receipts.length ∧
      g.totalAddresses = (buildAdm tagged).length ∧
      g.grandTotal = ⟨receipts.length,
        ((sortBy addrDescLe byAddr).map (fun a => a.totalStar)).sum,
        ((sortBy addrDescLe byAddr).map (fun a => a.totalNight)).sum⟩ ∧
      g.startDate = ((sortDaysDesc gdays).getLast?).map (fun d => d.date) ∧
      g.endDate = ((sortDaysDesc gdays).head?).map (fun d => d.date) := by
  unfold computeStats at hg
  rw [if_neg (by simpa [List.isEmpty_iff] using hne)] at hg
  split at hg
  case h_1 => cases hg
  case h_2 tagged htagged =>
    try dsimp only at hg
    split at hg
    case h_1 => cases hg
    case h_2 byAddr hbyAddr =>
      try dsimp only at hg
      split at hg
      case h_1 => cases hg
      case h_2 gdays hgdays =>
        cases hg
        exact ⟨tagged, byAddr, gdays, htagged, hbyAddr, hgdays, rfl, rfl, rfl, rfl, rfl, rfl, rfl⟩

theorem hourEntry_night (receipts : List ReceiptEntry) (rates : List ℚ) (now : Nat)
    (h j : Nat) (e : HourStats) (he : hourEntry receipts rates now h j = some e) :
    e.night = e.star / 1000000 := by
  unfold hourEntry at he
  dsimp only at he
  split at he
  case h_1 => cases he
  case h_2 totalStar hsum => cases he; rfl

/-- C1 (amended): every produced entry has `night = star / 1_000_000`: all
DayStats, HourStats and AddressStats records of every stats function satisfy
the identity (each stores the very quotient, so it holds bit for bit in the
source's doubles as well).  The claim's further assertion about the grand
total is false: `grandTotal.night` sums the per-address `totalNight` doubles,
which can differ from `grandTotal.star / 1_000_000` by a rounding error — see
`night_grandTotal_float_counterexample`. -/
theorem night_is_star_div_million (receipts : List ReceiptEntry) (rates : List ℚ) (now : Nat)
    (hours : Int) :
    (∀ g, computeStats receipts rates = some g →
      (∀ d ∈ g.days, d.night = d.star / 1000000) ∧
      (∀ a ∈ g.byAddress, a.totalNight = a.totalStar / 1000000 ∧
        ∀ d ∈ a.days, d.night = d.star / 1000000)) ∧
    (∀ h, computeHourlyStats receipts rates now = some (some h) →
      h.night = h.star / 1000000) ∧
    (∀ l, computeLastNHours receipts rates now hours = some l →
      ∀ h ∈ l, h.night = h.star / 1000000) ∧
    (∀ s, getTodayStats receipts rates now = some (some s) →
      s.night = s.star / 1000000) := by
  refine ⟨?_, ?_, ?_, ?_⟩
  · intro g hg
    by_cases hne : receipts = []
    · subst hne
      have : g = emptyGlobalStats := by
        simpa [computeStats] using hg.symm
      subst this
      exact ⟨by simp [emptyGlobalStats], by simp [emptyGlobalStats]⟩
    · obtain ⟨tagged, byAddr, gdays, htagged, hbyAddr, hgdays, hdays, hby, -, -, -, -, -⟩ :=
        computeStats_inv hne hg
      have haddr : ∀ a ∈ sortBy addrDescLe byAddr, a.totalNight = a.totalStar / 1000000 ∧
          ∀ d ∈ a.days, d.night = d.star / 1000000 := by
        intro a ha
        have ha2 : a ∈ byAddr := (sortBy_perm addrDescLe byAddr).mem_iff.mp ha
        obtain ⟨e, -, he⟩ := forall₂_mem_right (mapMo_forall₂ hbyAddr) ha2
        obtain ⟨L, hL, hdaysL, -, -, -, hnight⟩ := addressStatsOf_spec rates _ e a he
        refine ⟨hnight, ?_⟩
        intro d hd
        rw [hdaysL] at hd
        have hd2 : d ∈ L := (sortBy_perm dayDescLe L).mem_iff.mp hd
        obtain ⟨dc, -, hdc⟩ := forall₂_mem_right hL hd2
        exact hdc.2.2.2
      refine ⟨?_, ?_⟩
      · intro d hd
        rw [hdays] at hd
        have hd2 : d ∈ gdays := (sortBy_perm dayDescLe gdays).mem_iff.mp hd
        obtain ⟨e, -, he⟩ := forall₂_mem_right (mapMo_forall₂ hgdays) hd2
        exact (globalDayStatsOf_spec rates tagged e d he).2.2.2.1
      · intro a ha
        rw [hby] at ha
        exact haddr a ha
  · intro h hh
    by_cases hne : receipts = []
    · subst hne
      simp [computeHourlyStats] at hh
    · unfold computeHourlyStats at hh
      rw [if_neg (by simpa [List.isEmpty_iff] using hne)] at hh
      dsimp only at hh
      split at hh
      · cases hh
        show (0 : ℚ) = 0 / 1000000
        norm_num
      · split at hh
        next => cases hh
        next totalStar hsum => cases hh; rfl
  · intro l hl h hh
    unfold computeLastNHours at hl
    split at hl
    · cases hl
      cases hh
    · obtain ⟨j, -, hj⟩ := forall₂_mem_right (mapMo_forall₂ hl) hh
      exact hourEntry_night receipts rates now _ j h hj
  · intro s hs
    unfold getTodayStats at hs
    dsimp only at hs
    split at hs
    next => cases hs
    next dated hdated =>
      split at hs
      next => cases hs
      next r0 rest hmatch =>
        split at hs
        next => cases hs
        next day hday => cases hs; rfl

/-- Witness for C1: the global day entries at a concrete two-receipt input. -/
theorem night_is_star_div_million_witness :
    (computeStats [⟨1762337700000, "A", "**D07C01"⟩, ⟨1762339500000, "B", "**D07C01"⟩]
        [0, 0, 0, 0, 0, 0, 2]).map (fun g => g.days.map (fun d => d.night)) =
      (computeStats [⟨1762337700000, "A", "**D07C01"⟩, ⟨1762339500000, "B", "**D07C01"⟩]
        [0, 0, 0, 0, 0, 0, 2]).map (fun g => g.days.map (fun d => d.star / 1000000)) := by
  cases hc : computeStats [⟨1762337700000, "A", "**D07C01"⟩, ⟨1762339500000, "B", "**D07C01"⟩]
      [0, 0, 0, 0, 0, 0, 2] with
  | none => rfl
  | some g =>
    simp only [Option.map_some']
    refine congrArg some (List.map_congr_left ?_)
    intro d hd
    exact (((night_is_star_div_million
      [⟨1762337700000, "A", "**D07C01"⟩, ⟨1762339500000, "B", "**D07C01"⟩]
      [0, 0, 0, 0, 0, 0, 2] 0 0).1 g hc).1 d hd)

/-- Counterexample for C1's grand-total clause: in the source's binary64
arithmetic (`computeStatsF`), with rates `[1e6, 1e-10]` and one receipt on
each of days 1 and 2, `grandTotal.night` is exactly 1 while
`grandTotal.star / 1_000_000` is `1 + 2 ^ (-52)`: summing the per-address
`totalNight` doubles loses the tiny second term, while the star sum retains
it and the final division exposes it. -/
theorem night_grandTotal_float_counterexample :
    (computeStatsF [⟨10, "A", "**D01C00"⟩, ⟨20, "B", "**D02C00"⟩]
        [1000000, roundD (1 / 10000000000)]).map
      (fun g => decide (g.grandTotal.night = divD g.grandTotal.star 1000000)) = some false ∧
    (computeStatsF [⟨10, "A", "**D01C00"⟩, ⟨20, "B", "**D02C00"⟩]
        [1000000, roundD (1 / 10000000000)]).map (fun g => g.grandTotal.night) = some 1 ∧
    (computeStatsF [⟨10, "A", "**D01C00"⟩, ⟨20, "B", "**D02C00"⟩]
        [1000000, roundD (1 / 10000000000)]).map (fun g => divD g.grandTotal.star 1000000) =
      some ((4503599627370497 : ℚ) / 4503599627370496) := by
  refine ⟨by decide!, by decide!, by decide!⟩

/-! ## Rate-table independence of success -/

theorem addressStatsOf_isSome_iff (rates : List ℚ) (ats : List (String × List Nat))
    (e : String × List (Nat × Nat)) :
    (addressStatsOf rates ats e).isSome ↔
      ∀ dc ∈ e.2, (dateFromChallengeId (mkChallengeId dc.1)).isSome := by
  unfold addressStatsOf
  split
  case h_1 hnone =>
    refine iff_of_false (by simp) ?_
    intro hall
    have : (mapMo (fun dc => (dateFromChallengeId (mkChallengeId dc.1)).map (fun date =>
        let star : ℚ := (dc.2 : ℚ) * rateAt rates dc.1
        ({ day := dc.1, date := date, receipts := dc.2, addresses := none,
           star := star, night := star / 1000000 } : DayStats))) e.2).isSome := by
      apply mapMo_isSome_iff.mpr
      intro dc hdc
      rw [Option.isSome_map']
      exact hall dc hdc
    rw [hnone] at this
    simp at this
  case h_2 L hL =>
    refine iff_of_true (by simp) ?_
    intro dc hdc
    have := mapMo_isSome_iff.mp (by rw [hL]; rfl) dc hdc
    rwa [Option.isSome_map'] at this

theorem globalDayStatsOf_isSome_iff (rates : List ℚ) (tagged : List (ReceiptEntry × Nat))
    (e : Nat × List String) :
    (globalDayStatsOf rates tagged e).isSome ↔
      (dateFromChallengeId (mkChallengeId e.1)).isSome := by
  unfold globalDayStatsOf
  rw [Option.isSome_map']

theorem hourStarSum_isSome_iff (rates : List ℚ) (l : List ReceiptEntry) :
    (hourStarSum rates l).isSome ↔ ∀ r ∈ l, (dayFromChallengeId r.challenge_id).isSome := by
  unfold hourStarSum
  split
  case h_1 hnone =>
    refine iff_of_false (by simp) ?_
    intro hall
    have : (mapMo (fun r => (dayFromChallengeId r.challenge_id).map
        (fun day => rateAt rates day)) l).isSome := by
      apply mapMo_isSome_iff.mpr
      intro r hr
      rw [Option.isSome_map']
      exact hall r hr
    rw [hnone] at this
    simp at this
  case h_2 rs hrs =>
    refine iff_of_true (by simp) ?_
    intro r hr
    have := mapMo_isSome_iff.mp (by rw [hrs]; rfl) r hr
    rwa [Option.isSome_map'] at this

theorem hourEntry_isSome_iff (receipts : List ReceiptEntry) (rates : List ℚ) (now : Nat)
    (h j : Nat) :
    (hourEntry receipts rates now h j).isSome ↔
      ∀ r ∈ receipts.filter (inWindow
        ((hourFloorMs now : Int) - ((h - j : Nat) : Int) * 3600000)
        ((hourFloorMs now : Int) - ((h - j - 1 : Nat) : Int) * 3600000)),
        (dayFromChallengeId r.challenge_id).isSome := by
  unfold hourEntry
  dsimp only
  rw [← hourStarSum_isSome_iff rates]
  split
  case h_1 hnone => simp [hnone]
  case h_2 ts hts => simp [hts]

theorem mapMo_isSome_congr {α β : Type} {f g : α → Option β} (l : List α)
    (h : ∀ a ∈ l, (f a).isSome ↔ (g a).isSome) :
    (mapMo f l).isSome = (mapMo g l).isSome := by
  rw [Bool.eq_iff_iff, mapMo_isSome_iff, mapMo_isSome_iff]
  constructor
  · intro hall a ha
    exact (h a ha).mp (hall a ha)
  · intro hall a ha
    exact (h a ha).mpr (hall a ha)

theorem computeStats_isSome_rates (receipts : List ReceiptEntry) (rates rates2 : List ℚ) :
    (computeStats receipts rates).isSome = (computeStats receipts rates2).isSome := by
  by_cases hne : receipts = []
  · subst hne
    rfl
  · unfold computeStats
    rw [if_neg (by simpa [List.isEmpty_iff] using hne),
      if_neg (by simpa [List.isEmpty_iff] using hne)]
    cases ht : mapMo (fun r => (dayFromChallengeId r.challenge_id).map (fun d => (r, d)))
        receipts with
    | none => rfl
    | some tagged =>
      try dsimp only
      have h2 : (mapMo (addressStatsOf rates (buildAts tagged)) (buildAdm tagged)).isSome =
          (mapMo (addressStatsOf rates2 (buildAts tagged)) (buildAdm tagged)).isSome := by
        apply mapMo_isSome_congr
        intro e he
        rw [addressStatsOf_isSome_iff, addressStatsOf_isSome_iff]
      have h3 : (mapMo (globalDayStatsOf rates tagged) (buildGdm tagged)).isSome =
          (mapMo (globalDayStatsOf rates2 tagged) (buildGdm tagged)).isSome := by
        apply mapMo_isSome_congr
        intro e he
        rw [globalDayStatsOf_isSome_iff, globalDayStatsOf_isSome_iff]
      cases ha : mapMo (addressStatsOf rates (buildAts tagged)) (buildAdm tagged) with
      | none =>
        rw [ha] at h2
        cases hb : mapMo (addressStatsOf rates2 (buildAts tagged)) (buildAdm tagged) with
        | none => rfl
        | some _ => rw [hb] at h2; simp at h2
      | some byAddr =>
        rw [ha] at h2
        cases hb : mapMo (addressStatsOf rates2 (buildAts tagged)) (buildAdm tagged) with
        | none => rw [hb] at h2; simp at h2
        | some byAddr2 =>
          try dsimp only
          cases hc : mapMo (globalDayStatsOf rates tagged) (buildGdm tagged) with
          | none =>
            rw [hc] at h3
            cases hd : mapMo (globalDayStatsOf rates2 tagged) (buildGdm tagged) with
            | none => rfl
            | some _ => rw [hd] at h3; simp at h3
          | some gdays =>
            rw [hc] at h3
            cases hd : mapMo (globalDayStatsOf rates2 tagged) (buildGdm tagged) with
            | none => rw [hd] at h3; simp at h3
            | some gdays2 => rfl

theorem computeHourlyStats_isSome_rates (receipts : List ReceiptEntry) (rates rates2 : List ℚ)
    (now : Nat) :
    (computeHourlyStats receipts rates now).isSome =
      (computeHourlyStats receipts rates2 now).isSome := by
  unfold computeHourlyStats
  split
  · rfl
  · dsimp only
    split
    · rfl
    · have hiff : (hourStarSum rates (receipts.filter (inWindow
          ((hourFloorMs now : Int) - 3600000) (hourFloorMs now : Int)))).isSome =
          (hourStarSum rates2 (receipts.filter (inWindow
          ((hourFloorMs now : Int) - 3600000) (hourFloorMs now : Int)))).isSome := by
        rw [Bool.eq_iff_iff, hourStarSum_isSome_iff, hourStarSum_isSome_iff]
      cases ha : hourStarSum rates (receipts.filter (inWindow
          ((hourFloorMs now : Int) - 3600000) (hourFloorMs now : Int))) with
      | none =>
        rw [ha] at hiff
        cases hb : hourStarSum rates2 (receipts.filter (inWindow
            ((hourFloorMs now : Int) - 3600000) (hourFloorMs now : Int))) with
        | none => rfl
        | some t2 => rw [hb] at hiff; simp at hiff
      | some t1 =>
        rw [ha] at hiff
        cases hb : hourStarSum rates2 (receipts.filter (inWindow
            ((hourFloorMs now : Int) - 3600000) (hourFloorMs now : Int))) with
        | none => rw [hb] at hiff; simp at hiff
        | some t2 => rfl

theorem computeLastNHours_isSome_rates (receipts : List ReceiptEntry) (rates rates2 : List ℚ)
    (now : Nat) (hours : Int) :
    (computeLastNHours receipts rates now hours).isSome =
      (computeLastNHours receipts rates2 now hours).isSome := by
  unfold computeLastNHours
  split
  · rfl
  · apply mapMo_isSome_congr
    intro j hj
    rw [hourEntry_isSome_iff, hourEntry_isSome_iff]

/-- C6: a short or empty rate table never makes any aggregator throw (success
is independent of the table), and a day whose `day − 1` index is outside the
table still gets a DayStats with the correct receipt count and zero STAR. -/
theorem short_rate_table_safe (receipts : List ReceiptEntry) (rates rates2 : List ℚ)
    (now : Nat) (hours : Int) :
    (computeStats receipts rates).isSome = (computeStats receipts rates2).isSome ∧
    (computeHourlyStats receipts rates now).isSome =
      (computeHourlyStats receipts rates2 now).isSome ∧
    (computeLastNHours receipts rates now hours).isSome =
      (computeLastNHours receipts rates2 now hours).isSome ∧
    (∀ g, computeStats receipts rates = some g → ∀ d ∈ g.days,
      d.day = 0 ∨ rates.length < d.day →
      d.star = 0 ∧ d.night = 0 ∧
        d.receipts = receipts.countP
          (fun r => dayFromChallengeId r.challenge_id == some d.day)) := by
  refine ⟨computeStats_isSome_rates receipts rates rates2,
    computeHourlyStats_isSome_rates receipts rates rates2 now,
    computeLastNHours_isSome_rates receipts rates rates2 now hours, ?_⟩
  intro g hg d hd hout
  by_cases hne : receipts = []
  · subst hne
    have : g = emptyGlobalStats := by simpa [computeStats] using hg.symm
    subst this
    simp [emptyGlobalStats] at hd
  · obtain ⟨tagged, byAddr, gdays, htagged, hbyAddr, hgdays, hdays, -, -, -, -, -, -⟩ :=
      computeStats_inv hne hg
    rw [hdays] at hd
    have hd2 : d ∈ gdays := (sortBy_perm dayDescLe gdays).mem_iff.mp hd
    obtain ⟨e, -, he⟩ := forall₂_mem_right (mapMo_forall₂ hgdays) hd2
    obtain ⟨hday, hrec, hstar, hnight, -, -⟩ := globalDayStatsOf_spec rates tagged e d he
    have hrate : rateAt rates d.day = 0 := by
      unfold rateAt
      rcases hout with h0 | hlen
      · rw [if_pos h0]
      · rw [if_neg (by omega)]
        apply List.getD_eq_default
        omega
    have hstar0 : d.star = 0 := by
      rw [hstar, ← hday, hrate, mul_zero]
    refine ⟨hstar0, by rw [hnight, hstar0, zero_div], ?_⟩
    rw [hrec, ← hday]
    have hcnt : ∀ (l1 : List ReceiptEntry) (l2 : List (ReceiptEntry × Nat)),
        List.Forall₂ (fun r rd => (dayFromChallengeId r.challenge_id).map
          (fun dd => (r, dd)) = some rd) l1 l2 →
        l2.countP (fun rd => rd.2 == d.day) =
          l1.countP (fun r => dayFromChallengeId r.challenge_id == some d.day) := by
      intro l1 l2 hf
      induction hf with
      | nil => rfl
      | cons hR hrest ih =>
        rcases Option.map_eq_some'.mp hR with ⟨dd, hdd, hpair⟩
        rw [List.countP_cons, List.countP_cons, ih, ← hpair, hdd]
        by_cases hcase : dd = d.day
        · simp [hcase]
        · simp [hcase, Option.some.injEq]
    exact hcnt receipts tagged (mapMo_forall₂ htagged)

/-- Witness for C6: two day-7 receipts against an empty rate table. -/
theorem short_rate_table_safe_witness :
    ((computeStats [⟨1762337700000, "A", "**D07C01"⟩, ⟨1762339500000, "B", "**D07C01"⟩]
        []).map (fun g => g.days.all (fun d => decide (d.star = 0) && decide (d.night = 0) &&
          (d.receipts == ([⟨1762337700000, "A", "**D07C01"⟩,
            ⟨1762339500000, "B", "**D07C01"⟩] : List ReceiptEntry).countP
            (fun r => dayFromChallengeId r.challenge_id == some d.day)))) = some true) ∧
    ((computeStats [⟨1762337700000, "A", "**D07C01"⟩, ⟨1762339500000, "B", "**D07C01"⟩]
        []).isSome =
      (computeStats [⟨1762337700000, "A", "**D07C01"⟩, ⟨1762339500000, "B", "**D07C01"⟩]
        [5]).isSome) := by
  constructor
  · cases hc : computeStats [⟨1762337700000, "A", "**D07C01"⟩, ⟨1762339500000, "B", "**D07C01"⟩]
        [] with
    | none =>
      have habs : (computeStats [⟨1762337700000, "A", "**D07C01"⟩,
          ⟨1762339500000, "B", "**D07C01"⟩] []).isSome = true := by decide!
      rw [hc] at habs
      cases habs
    | some g =>
      simp only [Option.map_some', Option.some.injEq]
      rw [List.all_eq_true]
      intro d hd
      have h4 := (short_rate_table_safe
        [⟨1762337700000, "A", "**D07C01"⟩, ⟨1762339500000, "B", "**D07C01"⟩] [] [5] 0 0).2.2.2
        g hc d hd (by simp; omega)
      rw [h4.1, h4.2.1, h4.2.2]
      simp
  · exact (short_rate_table_safe
      [⟨1762337700000, "A", "**D07C01"⟩, ⟨1762339500000, "B", "**D07C01"⟩] [] [5] 0 0).1

/-! ## Ordering and stability of the produced lists -/

theorem pairwise_true {α : Type} : ∀ l : List α, l.Pairwise (fun _ _ => True) := by
  intro l
  induction l with
  | nil => exact List.Pairwise.nil
  | cons x xs ih => exact List.Pairwise.cons (fun _ _ => trivial) ih

theorem forall₂_map_eq {α β γ : Type} {R : α → β → Prop} (f : α → γ) (g : β → γ)
    (hfg : ∀ a b, R a b → f a = g b) :
    ∀ {l1 : List α} {l2 : List β}, List.Forall₂ R l1 l2 → l1.map f = l2.map g := by
  intro l1 l2 h
  induction h with
  | nil => rfl
  | cons hR hrest ih => simp only [List.map_cons, ih, hfg _ _ hR]

theorem forall₂_pairwise {α β : Type} {R : α → β → Prop} {P : α → α → Prop}
    {Q : β → β → Prop} (himp : ∀ a b c d, R a c → R b d → P a b → Q c d) :
    ∀ {l1 : List α} {l2 : List β}, List.Forall₂ R l1 l2 → l1.Pairwise P → l2.Pairwise Q := by
  intro l1 l2 h
  induction h with
  | nil => intro _; exact List.Pairwise.nil
  | cons hR hrest ih =>
    intro hp
    rcases List.pairwise_cons.mp hp with ⟨hhead, htail⟩
    refine List.Pairwise.cons ?_ (ih htail)
    intro b hb
    obtain ⟨a, ha, hab⟩ := forall₂_mem_right hrest hb
    exact himp _ _ _ _ hR hab (hhead a ha)

theorem bumpDay_keys (d : Nat) :
    ∀ dm : List (Nat × Nat),
      (bumpDay dm d).map Prod.fst =
        if d ∈ dm.map Prod.fst then dm.map Prod.fst else dm.map Prod.fst ++ [d] := by
  intro dm
  induction dm with
  | nil => simp [bumpDay]
  | cons e rest ih =>
    obtain ⟨k, v⟩ := e
    simp only [bumpDay]
    by_cases hk : k = d
    · subst hk
      simp
    · have hk2 : d ≠ k := fun hcon => hk hcon.symm
      simp only [if_neg hk, List.map_cons, ih]
      by_cases hmem : d ∈ rest.map Prod.fst <;> simp [hmem, hk2]

theorem admInsert_values_nodup (a : String) (d : Nat) :
    ∀ m : List (String × List (Nat × Nat)),
      (∀ e ∈ m, (e.2.map Prod.fst).Nodup) →
      ∀ e ∈ admInsert m a d, (e.2.map Prod.fst).Nodup := by
  intro m
  induction m with
  | nil =>
    intro _ e he
    simp only [admInsert, List.mem_singleton] at he
    subst he
    simp
  | cons e0 rest ih =>
    obtain ⟨k, dm⟩ := e0
    intro hall e he
    simp only [admInsert] at he
    split at he
    · rcases List.mem_cons.mp he with h1 | h1
      · subst h1
        show ((bumpDay dm d).map Prod.fst).Nodup
        rw [bumpDay_keys]
        split
        · exact hall (k, dm) (by simp)
        case isFalse hmem =>
          exact nodup_snoc _ _ (hall (k, dm) (by simp)) hmem
      · exact hall e (by simp [h1])
    · rcases List.mem_cons.mp he with h1 | h1
      · subst h1
        exact hall (k, dm) (by simp)
      · exact ih (fun x hx => hall x (by simp [hx])) e h1

theorem buildAdm_values_nodup :
    ∀ (l : List (ReceiptEntry × Nat)) (acc : List (String × List (Nat × Nat))),
      (∀ e ∈ acc, (e.2.map Prod.fst).Nodup) →
      ∀ e ∈ l.foldl (fun acc rd => admInsert acc rd.1.address rd.2) acc,
        (e.2.map Prod.fst).Nodup := by
  intro l
  induction l with
  | nil => intro acc h; simpa using h
  | cons rd rest ih =>
    intro acc hacc
    simp only [List.foldl_cons]
    exact ih _ (admInsert_values_nodup rd.1.address rd.2 acc hacc)

/-- Strictly-descending day order after the descending sort, given distinct
day keys before it. -/
theorem sortDaysDesc_strict (L : List DayStats)
    (hnd : L.Pairwise (fun d e => d.day ≠ e.day)) :
    (sortDaysDesc L).Pairwise (fun d e => e.day < d.day) := by
  have htot : ∀ a b : DayStats, dayDescLe a b = true ∨ dayDescLe b a = true := by
    intro a b
    unfold dayDescLe
    rcases Nat.le_total b.day a.day with h | h
    · left; simpa using h
    · right; simpa using h
  have htrans : ∀ a b c : DayStats, dayDescLe a b = true → dayDescLe b c = true →
      dayDescLe a c = true := by
    intro a b c h1 h2
    unfold dayDescLe at *
    simp only [decide_eq_true_eq] at *
    omega
  have := sortBy_pairwise htot htrans L hnd
  refine this.imp ?_
  intro a b hab
  obtain ⟨h1, h2⟩ := hab
  unfold dayDescLe at h1
  simp only [decide_eq_true_eq] at h1
  rcases Nat.lt_or_ge b.day a.day with h | h
  · exact h
  · have heq : a.day = b.day := by omega
    exact absurd heq (h2 (by simp [dayDescLe]; omega))

/-- C8: the address ranking is descending by total receipts with ties in
first-appearance order (the tied segment embeds, in order, into the distinct
addresses in encounter order), and every day list is strictly descending. -/
theorem computeStats_ordering (receipts : List ReceiptEntry) (rates : List ℚ)
    (g : GlobalStats) (hg : computeStats receipts rates = some g) :
    g.byAddress.Pairwise (fun a b => b.totalReceipts ≤ a.totalReceipts) ∧
    (∀ v : Nat, List.Sublist
      ((g.byAddress.filter (fun a => a.totalReceipts == v)).map (fun a => a.address))
      (firstOccs (receipts.map (fun r => r.address)))) ∧
    g.days.Pairwise (fun d e => e.day < d.day) ∧
    (∀ a ∈ g.byAddress, a.days.Pairwise (fun d e => e.day < d.day)) := by
  by_cases hne : receipts = []
  · subst hne
    have : g = emptyGlobalStats := by simpa [computeStats] using hg.symm
    subst this
    simp [emptyGlobalStats, firstOccs]
  · obtain ⟨tagged, byAddr, gdays, htagged, hbyAddr, hgdays, hdays, hby, -, -, -, -, -⟩ :=
      computeStats_inv hne hg
    have haddrtot : ∀ a b : AddressStats, addrDescLe a b = true ∨ addrDescLe b a = true := by
      intro a b
      unfold addrDescLe
      rcases Nat.le_total b.totalReceipts a.totalReceipts with h | h
      · left; simpa using h
      · right; simpa using h
    have haddrtrans : ∀ a b c : AddressStats, addrDescLe a b = true → addrDescLe b c = true →
        addrDescLe a c = true := by
      intro a b c h1 h2
      unfold addrDescLe at *
      simp only [decide_eq_true_eq] at *
      omega
    refine ⟨?_, ?_, ?_, ?_⟩
    · rw [hby]
      have := sortBy_pairwise haddrtot haddrtrans byAddr (pairwise_true byAddr)
      refine this.imp ?_
      intro a b hab
      have := hab.1
      unfold addrDescLe at this
      simpa using this
    · intro v
      rw [hby]
      have hstab : (sortBy addrDescLe byAddr).filter (fun a => a.totalReceipts == v) =
          byAddr.filter (fun a => a.totalReceipts == v) := by
        have : addrDescLe = fun a b : AddressStats =>
            decide ((fun x : AddressStats => x.totalReceipts) b ≤
              (fun x : AddressStats => x.totalReceipts) a) := rfl
        rw [this]
        exact sortBy_filter_key (fun x : AddressStats => x.totalReceipts) v byAddr
      rw [hstab]
      have hkeys : byAddr.map (fun a => a.address) = (buildAdm tagged).map Prod.fst := by
        symm
        refine forall₂_map_eq Prod.fst (fun a => a.address) ?_ (mapMo_forall₂ hbyAddr)
        intro e a he
        obtain ⟨L, -, -, haddr, -, -⟩ := addressStatsOf_spec rates (buildAts tagged) e a he
        exact haddr.symm
      have hfo : (buildAdm tagged).map Prod.fst =
          firstOccs (receipts.map (fun r => r.address)) := by
        unfold buildAdm firstOccs
        rw [buildAdm_keys_firstOccs tagged []]
        congr 1
        have : tagged.map (fun rd => rd.1.address) =
            (tagged.map Prod.fst).map (fun r => r.address) := by
          rw [List.map_map]
          rfl
        rw [this, tagged_fst htagged]
      have hsub : List.Sublist
          ((byAddr.filter (fun a => a.totalReceipts == v)).map (fun a => a.address))
          (byAddr.map (fun a => a.address)) :=
        (List.filter_sublist byAddr).map (fun a => a.address)
      rw [hkeys, hfo] at hsub
      exact hsub
    · rw [hdays]
      apply sortDaysDesc_strict
      have hnodup : ((buildGdm tagged).map Prod.fst).Nodup := buildGdm_keys_nodup tagged [] (by simp)
      have hpair : (buildGdm tagged).Pairwise (fun e1 e2 => e1.1 ≠ e2.1) := by
        have := List.Pairwise.of_map Prod.fst (fun a b h => h) hnodup
        exact this
      refine forall₂_pairwise ?_ (mapMo_forall₂ hgdays) hpair
      intro e1 e2 d1 d2 h1 h2 hne12
      rw [(globalDayStatsOf_spec _ _ _ _ h1).1, (globalDayStatsOf_spec _ _ _ _ h2).1]
      exact hne12
    · intro a ha
      rw [hby] at ha
      have ha2 : a ∈ byAddr := (sortBy_perm addrDescLe byAddr).mem_iff.mp ha
      obtain ⟨e, he, hae⟩ := forall₂_mem_right (mapMo_forall₂ hbyAddr) ha2
      obtain ⟨L, hL, hdaysL, -, -, -, -⟩ := addressStatsOf_spec _ _ e a hae
      rw [hdaysL]
      apply sortDaysDesc_strict
      have hnodup : (e.2.map Prod.fst).Nodup :=
        buildAdm_values_nodup tagged [] (by simp) e he
      have hpair : e.2.Pairwise (fun x y => x.1 ≠ y.1) :=
        List.Pairwise.of_map Prod.fst (fun a b h => h) hnodup
      refine forall₂_pairwise ?_ hL hpair
      intro dc1 dc2 d1 d2 h1 h2 hne12
      rw [h1.1, h2.1]
      exact hne12

/-- Witness for C8 at a concrete three-receipt input with an address tie. -/
theorem computeStats_ordering_witness :
    (computeStats ([⟨10, "B", "**D02C00"⟩, ⟨20, "A", "**D01C00"⟩, ⟨30, "A", "**D02C00"⟩] :
        List ReceiptEntry) []).map
      (fun g => decide (g.byAddress.Pairwise (fun a b => b.totalReceipts ≤ a.totalReceipts)) &&
        decide (g.days.Pairwise (fun d e => e.day < d.day))) = some true := by
  cases hgeq : computeStats ([⟨10, "B", "**D02C00"⟩, ⟨20, "A", "**D01C00"⟩,
      ⟨30, "A", "**D02C00"⟩] : List ReceiptEntry) [] with
  | none =>
    have hs : (computeStats ([⟨10, "B", "**D02C00"⟩, ⟨20, "A", "**D01C00"⟩,
        ⟨30, "A", "**D02C00"⟩] : List ReceiptEntry) []).isSome = true := by decide!
    rw [hgeq] at hs
    cases hs
  | some g =>
    have hord := computeStats_ordering _ [] g hgeq
    simp only [Option.map_some', Option.some.injEq, Bool.and_eq_true, decide_eq_true_eq]
    exact ⟨hord.1, hord.2.2.1⟩

/-! ## Receipt conservation -/

theorem forall₂_filter_sum (day : Nat) :
    ∀ {dm : List (Nat × Nat)} {L : List DayStats},
      List.Forall₂ (fun dc ds => ds.day = dc.1 ∧ ds.receipts = dc.2) dm L →
      ((L.filter (fun x => x.day == day)).map (fun x => x.receipts)).sum =
        pairFilterSum dm day := by
  intro dm L h
  induction h with
  | nil => rfl
  | cons hR hrest ih =>
    rename_i dc ds dmt Lt
    obtain ⟨hday, hrec⟩ := hR
    simp only [pairFilterSum, List.filter_cons] at ih ⊢
    by_cases hmatch : (dc.1 == day) = true
    · have hm2 : (ds.day == day) = true := by
        rw [hday]
        exact hmatch
      simp only [hmatch, hm2, if_pos, List.map_cons, List.sum_cons, hrec, ih]
    · have hm2 : ¬ (ds.day == day) = true := by
        rw [hday]
        exact hmatch
      rw [if_neg hm2, if_neg hmatch]
      exact ih

/-- C2: the receipt counts in the global day list sum to the total number of
receipts, and each day's count equals the sum over all addresses of that
address's count for the day. -/
theorem computeStats_receipt_conservation (receipts : List ReceiptEntry) (rates : List ℚ)
    (g : GlobalStats) (hne : receipts ≠ [])
    (hg : computeStats receipts rates = some g) :
    (g.days.map (fun d => d.receipts)).sum = receipts.length ∧
    ∀ d ∈ g.days, d.receipts =
      (g.byAddress.map (fun a =>
        ((a.days.filter (fun x => x.day == d.day)).map (fun x => x.receipts)).sum)).sum := by
  obtain ⟨tagged, byAddr, gdays, htagged, hbyAddr, hgdays, hdays, hby, -, -, -, -, -⟩ :=
    computeStats_inv hne hg
  have hlen : tagged.length = receipts.length :=
    ((mapMo_forall₂ htagged).length_eq).symm
  constructor
  · rw [hdays]
    have hperm : ((sortDaysDesc gdays).map (fun d => d.receipts)).sum =
        (gdays.map (fun d => d.receipts)).sum :=
      ((sortBy_perm dayDescLe gdays).map (fun d => d.receipts)).sum_eq
    rw [hperm]
    have hmap : (buildGdm tagged).map (fun e => tagged.countP (fun rd => rd.2 == e.1)) =
        gdays.map (fun ds => ds.receipts) := by
      refine forall₂_map_eq _ _ ?_ (mapMo_forall₂ hgdays)
      intro e ds he
      exact (globalDayStatsOf_spec rates tagged e ds he).2.1.symm
    rw [← hmap]
    have hcomp : (buildGdm tagged).map (fun e => tagged.countP (fun rd => rd.2 == e.1)) =
        ((buildGdm tagged).map Prod.fst).map (fun k => tagged.countP (fun rd => rd.2 == k)) := by
      rw [List.map_map]
      rfl
    rw [hcomp]
    have hpred : ∀ k : Nat, (fun rd : ReceiptEntry × Nat => rd.2 == k) =
        (fun rd : ReceiptEntry × Nat => (fun x : ReceiptEntry × Nat => x.2) rd == k &&
          (fun _ : ReceiptEntry × Nat => true) rd) := by
      intro k
      funext rd
      simp
    have hkey := sum_countP_key (fun rd : ReceiptEntry × Nat => rd.2)
      (fun _ => true) tagged ((buildGdm tagged).map Prod.fst)
      (buildGdm_keys_nodup tagged [] (by simp))
      (fun rd hrd _ => (buildGdm_keys_mem tagged [] rd.2).mpr
        (Or.inr (List.mem_map_of_mem (fun x => x.2) hrd)))
    have hcongr : ((buildGdm tagged).map Prod.fst).map
        (fun k => tagged.countP (fun rd => rd.2 == k)) =
        ((buildGdm tagged).map Prod.fst).map
        (fun k => tagged.countP (fun rd => rd.2 == k && true)) := by
      apply List.map_congr_left
      intro k _
      congr 1
      funext rd
      simp
    rw [hcongr]
    have hfix : ((buildGdm tagged).map Prod.fst).map
        (fun k => tagged.countP (fun rd => rd.2 == k && true)) =
        ((buildGdm tagged).map Prod.fst).map
        (fun k => tagged.countP (fun rd => (fun x : ReceiptEntry × Nat => x.2) rd == k &&
          (fun _ : ReceiptEntry × Nat => true) rd)) := rfl
    rw [hfix, hkey, List.countP_true, hlen]
  · intro d hd
    rw [hdays] at hd
    have hd2 : d ∈ gdays := (sortBy_perm dayDescLe gdays).mem_iff.mp hd
    obtain ⟨e, -, he⟩ := forall₂_mem_right (mapMo_forall₂ hgdays) hd2
    obtain ⟨hday, hrec, -, -, -, -⟩ := globalDayStatsOf_spec rates tagged e d he
    rw [hrec, hby]
    have hperm : ((sortBy addrDescLe byAddr).map (fun a =>
        ((a.days.filter (fun x => x.day == d.day)).map (fun x => x.receipts)).sum)).sum =
        (byAddr.map (fun a =>
        ((a.days.filter (fun x => x.day == d.day)).map (fun x => x.receipts)).sum)).sum :=
      ((sortBy_perm addrDescLe byAddr).map _).sum_eq
    rw [hperm]
    have hmap : (buildAdm tagged).map (fun e2 => pairFilterSum e2.2 d.day) =
        byAddr.map (fun a =>
          ((a.days.filter (fun x => x.day == d.day)).map (fun x => x.receipts)).sum) := by
      refine forall₂_map_eq _ _ ?_ (mapMo_forall₂ hbyAddr)
      intro e2 a he2
      obtain ⟨L, hL, hdaysL, -, -, -⟩ := addressStatsOf_spec rates (buildAts tagged) e2 a he2
      have hfperm : (a.days.filter (fun x => x.day == d.day)) =
          (sortDaysDesc L).filter (fun x => x.day == d.day) := by rw [hdaysL]
      rw [hfperm]
      have hpf : ((((sortDaysDesc L).filter (fun x => x.day == d.day)).map
          (fun x => x.receipts)).sum) =
          ((L.filter (fun x => x.day == d.day)).map (fun x => x.receipts)).sum :=
        (((sortBy_perm dayDescLe L).filter _).map _).sum_eq
      rw [hpf]
      symm
      apply forall₂_filter_sum
      exact List.Forall₂.imp (fun dc ds h => ⟨h.1, h.2.1⟩) hL
    rw [← hmap]
    have htot := buildAdm_totalForDay d.day tagged []
    unfold admTotalForDay at htot
    simp only [List.map_nil, List.sum_nil] at htot
    unfold buildAdm
    rw [htot]
    have hcnt : tagged.countP (fun rd => rd.2 == d.day) =
        tagged.countP (fun rd => rd.2 == e.1) := by
      congr 1
      funext rd
      rw [hday]
    rw [hcnt]
    omega

/-- Witness for C2 at a concrete three-receipt input. -/
theorem computeStats_receipt_conservation_witness :
    (computeStats ([⟨10, "B", "**D02C00"⟩, ⟨20, "A", "**D01C00"⟩, ⟨30, "A", "**D02C00"⟩] :
        List ReceiptEntry) []).map
      (fun g => (g.days.map (fun d => d.receipts)).sum) = some 3 := by
  cases hgeq : computeStats ([⟨10, "B", "**D02C00"⟩, ⟨20, "A", "**D01C00"⟩,
      ⟨30, "A", "**D02C00"⟩] : List ReceiptEntry) [] with
  | none =>
    have hs : (computeStats ([⟨10, "B", "**D02C00"⟩, ⟨20, "A", "**D01C00"⟩,
        ⟨30, "A", "**D02C00"⟩] : List ReceiptEntry) []).isSome = true := by decide!
    rw [hgeq] at hs
    cases hs
  | some g =>
    have h := (computeStats_receipt_conservation _ [] g (by simp) hgeq).1
    simp only [Option.map_some', Option.some.injEq]
    rw [h]
    rfl

theorem forall₂_mem_left {α β : Type} {R : α → β → Prop} :
    ∀ {l : List α} {out : List β}, List.Forall₂ R l out → ∀ {a}, a ∈ l →
      ∃ b ∈ out, R a b := by
  intro l out h
  induction h with
  | nil => intro a ha; cases ha
  | cons hR hrest ih =>
    intro a ha
    rcases List.mem_cons.mp ha with h1 | h1
    · subst h1
      exact ⟨_, by simp, hR⟩
    · obtain ⟨b, hb, hab⟩ := ih h1
      exact ⟨b, by simp [hb], hab⟩

/-- C10: `getTodayStats` returns `null` exactly when no receipt's
challenge-derived date equals the current UTC date (even on a non-empty
list); when non-null, the day field comes from a receipt dated today, and
every receipt dated today carries that same day number, because the
day-to-date mapping is injective. -/
theorem getTodayStats_spec (receipts : List ReceiptEntry) (rates : List ℚ) (now : Nat)
    (hparse : ∀ r ∈ receipts, ∃ s, dateFromChallengeId r.challenge_id = some s) :
    (getTodayStats receipts rates now = some none ↔
      ∀ r ∈ receipts,
        dateFromChallengeId r.challenge_id ≠ some (isoDateOfDays (now / 86400000))) ∧
    (∀ s, getTodayStats receipts rates now = some (some s) →
      s.date = isoDateOfDays (now / 86400000) ∧
      (∃ r ∈ receipts, dateFromChallengeId r.challenge_id = some s.date ∧
        dayFromChallengeId r.challenge_id = some s.day) ∧
      (∀ r ∈ receipts,
        dateFromChallengeId r.challenge_id = some (isoDateOfDays (now / 86400000)) →
        dayFromChallengeId r.challenge_id = some s.day)) := by
  have hms : (mapMo (fun r => (dateFromChallengeId r.challenge_id).map (fun dt => (r, dt)))
      receipts).isSome := by
    apply mapMo_isSome_iff.mpr
    intro r hr
    rcases hparse r hr with ⟨s, hs⟩
    rw [Option.isSome_map', hs]
    rfl
  obtain ⟨dated, hdated⟩ := Option.isSome_iff_exists.mp hms
  have hf2 := mapMo_forall₂ hdated
  have hpair : ∀ rd ∈ dated, rd.1 ∈ receipts ∧
      dateFromChallengeId rd.1.challenge_id = some rd.2 := by
    intro rd hrd
    obtain ⟨r, hr, hR⟩ := forall₂_mem_right hf2 hrd
    rcases Option.map_eq_some'.mp hR with ⟨dt, hdt, hpr⟩
    constructor
    · rw [← hpr]; exact hr
    · rw [← hpr]; exact hdt
  unfold getTodayStats
  dsimp only
  rw [hdated]
  dsimp only
  cases hfil : (dated.filter
      (fun rd => rd.2 == isoDateOfDays (now / 86400000))).map (fun rd => rd.1) with
  | nil =>
    constructor
    · refine iff_of_true rfl ?_
      intro r hr hcon
      obtain ⟨rd, hrdmem, hR⟩ := forall₂_mem_left hf2 hr
      rcases Option.map_eq_some'.mp hR with ⟨dt, hdt, hpr⟩
      have hdt2 : rd.2 = isoDateOfDays (now / 86400000) := by
        rw [hcon] at hdt
        cases hpr
        exact (Option.some.inj hdt).symm
      have hfl : dated.filter (fun rd => rd.2 == isoDateOfDays (now / 86400000)) = [] :=
        List.map_eq_nil_iff.mp hfil
      have := List.filter_eq_nil_iff.mp hfl rd hrdmem
      simp [hdt2] at this
    · intro s hs
      cases hs
  | cons r0 rest =>
    have hr0 : ∃ rd ∈ dated, rd.1 = r0 ∧
        rd.2 = isoDateOfDays (now / 86400000) := by
      have hmem : r0 ∈ (dated.filter
          (fun rd => rd.2 == isoDateOfDays (now / 86400000))).map (fun rd => rd.1) := by
        rw [hfil]
        simp
      obtain ⟨rd, hrdf, hrd1⟩ := List.mem_map.mp hmem
      refine ⟨rd, List.mem_of_mem_filter hrdf, hrd1, ?_⟩
      have := List.of_mem_filter hrdf
      simpa using this
    obtain ⟨rd0, hrd0mem, hrd01, hrd02⟩ := hr0
    have hr0rec : r0 ∈ receipts := by
      have := (hpair rd0 hrd0mem).1
      rwa [hrd01] at this
    have hr0date : dateFromChallengeId r0.challenge_id =
        some (isoDateOfDays (now / 86400000)) := by
      have := (hpair rd0 hrd0mem).2
      rw [hrd01, hrd02] at this
      exact this
    have hr0day : ∃ day0, dayFromChallengeId r0.challenge_id = some day0 ∧
        isoDateOfDayNum day0 = some (isoDateOfDays (now / 86400000)) := by
      unfold dateFromChallengeId at hr0date
      exact Option.bind_eq_some.mp hr0date
    obtain ⟨day0, hday0, hiso0⟩ := hr0day
    dsimp only
    rw [hday0]
    dsimp only
    constructor
    · refine iff_of_false (by simp) ?_
      intro hall
      exact hall r0 hr0rec hr0date
    · intro s hs
      injection hs with hs1
      injection hs1 with hs2
      subst hs2
      refine ⟨rfl, ⟨r0, hr0rec, ?_, ?_⟩, ?_⟩
      · exact hr0date
      · exact hday0
      · intro r hr hrdate
        obtain ⟨dr, hdr, hisor⟩ := Option.bind_eq_some.mp hrdate
        have hde : dr = day0 := isoDateOfDayNum_inj hisor hiso0
        rw [hdr, hde]

/-- Witness for C10: a non-empty list whose only receipt is dated 2025-10-30
while the current date is 2025-11-05 yields `null`; a receipt dated today
yields day 7. -/
theorem getTodayStats_spec_witness :
    getTodayStats ([⟨1762337700000, "A", "**D01C00"⟩] : List ReceiptEntry) [] 1762340000000 =
      some none ∧
    (getTodayStats ([⟨1762337700000, "A", "**D07C01"⟩] : List ReceiptEntry) []
        1762340000000).map (fun os => os.map (fun s => (s.day, s.date))) =
      some (some (7, "2025-11-05")) := by
  constructor
  · refine (getTodayStats_spec [⟨1762337700000, "A", "**D01C00"⟩] [] 1762340000000 ?_).1.mpr ?_
    · intro r hr
      rw [List.mem_singleton] at hr
      subst hr
      exact ⟨"2025-10-30", by decide!⟩
    · decide!
  · decide!
